import Mathlib

/-!
Shallow embedding of the InvoLogs invoice post-processing core:
the data canonicalizer (src/services/canonicalizer.py), the structural
validator (src/backend/utils/validators.py), the confidence scorer
(src/backend/services/confidence_scorer.py) and the pipeline step of the
extraction route (src/backend/routes/extract_routes.py), together with
theorems settling the specification claims.

Modelling conventions:
- Python str values are Lean String / List Char (ASCII fragment of the
  Python semantics for case mapping and character classes).
- Python float values are modelled exactly over ℚ; every amount appearing
  in the claims is decimal-exact, so binary-float rounding plays no role.
- Python dicts with a fixed key set are Lean structures; a field of type
  Option models a key that may be absent or hold None.  For amount-typed
  fields the type PyNum below distinguishes absent/None, numeric, and
  textual values, mirroring the dynamic typing of the source.
- The nondeterministic ingredients of vendor canonicalization
  (uuid.uuid4().hex[:8].upper() and datetime.now().isoformat()) are made
  explicit parameters uid and now of the functions that use them.
-/

set_option maxRecDepth 100000

namespace InvoLogs

/- Batteries marks the rational operations irreducible; evaluation inside
decide needs them unfolded. -/
attribute [local semireducible] Rat.mul Rat.add Rat.sub Rat.inv Rat.ofScientific

/-! ### Python string primitives -/

/-- Whitespace recognised by Python str.strip and the regex class \s
(ASCII fragment). -/
def pyIsSpace (c : Char) : Bool :=
  c = ' ' || c = '\t' || c = '\n' || c = '\r' || c = '\x0b' || c = '\x0c'

/-- Remove trailing whitespace characters. -/
def stripTrail : List Char → List Char
  | [] => []
  | c :: rest =>
    match stripTrail rest with
    | [] => if pyIsSpace c then [] else [c]
    | r => c :: r

/-- Python str.strip: remove leading and trailing whitespace. -/
def pyStrip (l : List Char) : List Char := stripTrail (l.dropWhile pyIsSpace)

/-- Python str.strip on String values. -/
def pyStripS (s : String) : String := String.mk (pyStrip s.toList)

/-- Worker for the whitespace-collapsing substitution; the flag records
whether the scan is inside a whitespace run whose single space was
already emitted. -/
def collapseWsAux (inRun : Bool) : List Char → List Char
  | [] => []
  | c :: rest =>
    if pyIsSpace c then
      if inRun then collapseWsAux true rest else ' ' :: collapseWsAux true rest
    else c :: collapseWsAux false rest

/-- The regex substitution sub(\s+, one space): every maximal whitespace
run becomes a single space. -/
def collapseWs (l : List Char) : List Char := collapseWsAux false l

/-- ASCII uppercase mapping of a character, modelling Python str.upper. -/
def upChar (c : Char) : Char :=
  if 'a' ≤ c ∧ c ≤ 'z' then Char.ofNat (c.toNat - 32) else c

/-- ASCII lowercase mapping of a character, modelling Python str.lower. -/
def downChar (c : Char) : Char :=
  if 'A' ≤ c ∧ c ≤ 'Z' then Char.ofNat (c.toNat + 32) else c

/-- ASCII letter test, modelling Python str.isalpha per character. -/
def isAlphaAsciiC (c : Char) : Bool :=
  ('A' ≤ c && c ≤ 'Z') || ('a' ≤ c && c ≤ 'z')

/-- Does the second list start with the first one? -/
def startsWithL : List Char → List Char → Bool
  | [], _ => true
  | _ :: _, [] => false
  | p :: ps, c :: cs => p = c && startsWithL ps cs

/-- Substring test, modelling the Python expression pat in s. -/
def hasSub (pat : List Char) : List Char → Bool
  | [] => pat.isEmpty
  | c :: rest => startsWithL pat (c :: rest) || hasSub pat rest

/-- Fuel-driven worker for str.replace; with fuel at least the length of
the text and a nonempty pattern it never hits the fuel floor. -/
def replaceSubF (pat rep : List Char) : Nat → List Char → List Char
  | _, [] => []
  | 0, l => l
  | Nat.succ fuel, c :: rest =>
    if startsWithL pat (c :: rest) then
      rep ++ replaceSubF pat rep fuel (List.drop (pat.length - 1) rest)
    else c :: replaceSubF pat rep fuel rest

/-- Python str.replace: replace every non-overlapping occurrence of pat,
scanning left to right. -/
def replaceSub (pat rep : List Char) (l : List Char) : List Char :=
  if pat = [] then l else replaceSubF pat rep l.length l

/-- Number of occurrences of a character. -/
def countChar (c : Char) (l : List Char) : Nat := (l.filter (fun x => x = c)).length

/-- Index of the first occurrence of a character (length if absent). -/
def idxC (c : Char) : List Char → Nat
  | [] => 0
  | x :: r => if x = c then 0 else idxC c r + 1

/-! ### Python float() and round() on decimal text -/

/-- Numeric value of a digit string. -/
def natOfDigits (l : List Char) : Nat :=
  l.foldl (fun a c => 10 * a + (c.toNat - 48)) 0

/-- Python float() on an unsigned decimal literal: digits with at most one
dot, at least one digit overall.  The inputs reaching it here contain only
digits, dot, comma and minus, so the exponent/inf/nan forms of the full
grammar cannot occur and are not modelled. -/
def parseUnsigned (l : List Char) : Option ℚ :=
  let intPart := l.takeWhile Char.isDigit
  let rest := l.dropWhile Char.isDigit
  match rest with
  | [] => if intPart.isEmpty then none else some (natOfDigits intPart)
  | '.' :: frac =>
    if frac.all Char.isDigit ∧ ¬(intPart.isEmpty ∧ frac.isEmpty) then
      some ((natOfDigits intPart : ℚ) + (natOfDigits frac : ℚ) / (10 : ℚ) ^ frac.length)
    else none
  | _ => none

/-- Python float() on the character material that survives the cleaning
regex (digits, dot, comma, minus); a ValueError is the none result. -/
def parseFloat (l : List Char) : Option ℚ :=
  match l with
  | '-' :: rest => (parseUnsigned rest).map Neg.neg
  | _ => parseUnsigned l

/-- Round to the nearest integer, ties to even, modelling Python round()
on the decimal-exact values that occur here.  The floor is the Euclidean
quotient of the reduced fraction, and the comparison of the remainder
with one half is cleared of denominators. -/
def roundHalfEven (q : ℚ) : ℤ :=
  if 2 * (q.num - q.num.ediv (q.den : ℤ) * (q.den : ℤ)) < (q.den : ℤ) then
    q.num.ediv (q.den : ℤ)
  else if (q.den : ℤ) < 2 * (q.num - q.num.ediv (q.den : ℤ) * (q.den : ℤ)) then
    q.num.ediv (q.den : ℤ) + 1
  else if q.num.ediv (q.den : ℤ) % 2 = 0 then q.num.ediv (q.den : ℤ)
  else q.num.ediv (q.den : ℤ) + 1

/-- Python round(x, 2). -/
def round2 (q : ℚ) : ℚ := (roundHalfEven (q * 100) : ℚ) / 100

/-! ### Amount-typed field values

PyNum models the dynamically typed content of an amount field: absent or
None, a Python int/float, or a str. -/

inductive PyNum where
  | none
  | num (q : ℚ)
  | str (s : String)
deriving DecidableEq, Repr

/-- Python truthiness of a PyNum value: None and 0 and the empty string
are falsy. -/
def truthyNum : PyNum → Bool
  | .none => false
  | .num q => ¬(q = 0)
  | .str s => ¬(s = "")

/-- Repack the numeric half of a normalize_currency_amount result as a
field value. -/
def toPyNum : Option ℚ → PyNum
  | Option.none => PyNum.none
  | Option.some q => PyNum.num q

/-! ### normalize_currency_amount -/

/-- Characters kept by the cleaning regex sub removing [^\d.,\-]. -/
def keepAmountChar (c : Char) : Bool :=
  c.isDigit || c = '.' || c = ',' || c = '-'

/-- The cleaned form of a textual amount: str(amount).strip() filtered to
digits, dot, comma, minus. -/
def amountCleaned (s : String) : List Char :=
  (pyStrip s.toList).filter keepAmountChar

/-- Currency symbol detection over str(amount).strip(), in source order
rupee, dollar, euro, pound. -/
def detectCurrency (s : String) : Option String :=
  let a := pyStrip s.toList
  if a.any (fun c => c = '₹') then some "INR"
  else if a.any (fun c => c = '$') then some "USD"
  else if a.any (fun c => c = '€') then some "EUR"
  else if a.any (fun c => c = '£') then some "GBP"
  else none

/-- Does the string end in three digits, a comma, then two digits?  This
is the regex search for \d{3},\d{2}$ used to classify a lone comma. -/
def endsDddCommaDd (l : List Char) : Bool :=
  match l.reverse with
  | e2 :: e1 :: ',' :: d3 :: d2 :: d1 :: _ =>
    e2.isDigit && e1.isDigit && d3.isDigit && d2.isDigit && d1.isDigit
  | _ => false

/-- Lookahead for the thousands-dot removal: three digits then a dot or a
comma. -/
def thousandsLookahead : List Char → Bool
  | a :: b :: c :: d :: _ => a.isDigit && b.isDigit && c.isDigit && (d = '.' || d = ',')
  | _ => false

/-- The regex sub removing every dot followed by three digits and another
separator (pattern \.(?=\d{3}[.,])), scanning left to right with the
lookahead reading the original remaining text. -/
def dropThousandDots : List Char → List Char
  | [] => []
  | c :: rest =>
    if c = '.' ∧ thousandsLookahead rest then dropThousandDots rest
    else c :: dropThousandDots rest

/-- Replace every comma by a dot (str.replace of a single character). -/
def commaToDot (l : List Char) : List Char :=
  l.map (fun c => if c = ',' then '.' else c)

/-- Separator disambiguation of normalize_currency_amount, applied to the
cleaned character material. -/
def separatorFix (cleaned : List Char) : List Char :=
  if countChar ',' cleaned = 1 ∧ countChar '.' cleaned = 1 then
    if idxC '.' cleaned < idxC ',' cleaned then
      commaToDot (cleaned.filter (fun c => ¬(c = '.')))
    else cleaned.filter (fun c => ¬(c = ','))
  else if countChar ',' cleaned = 1 then
    if endsDddCommaDd cleaned then commaToDot cleaned
    else cleaned.filter (fun c => ¬(c = ','))
  else if 1 < countChar '.' cleaned then
    let d := dropThousandDots cleaned
    if d.any (fun c => c = ',') then commaToDot d else d
  else cleaned

/-- normalize_currency_amount: numeric passthrough, or textual cleaning,
separator disambiguation, float conversion rounded to 2 decimals, with
currency-symbol detection.  Any conversion failure yields (none, none);
the comparison rindex(,) > rindex(.) of the source is the index
comparison below because each separator occurs exactly once in that
branch. -/
def normalize_currency_amount : PyNum → Option ℚ × Option String
  | PyNum.none => (Option.none, Option.none)
  | PyNum.num q => (some q, Option.none)
  | PyNum.str s =>
    match parseFloat (separatorFix (amountCleaned s)) with
    | some q => (some (round2 q), detectCurrency s)
    | Option.none => (Option.none, Option.none)

/-- The canonical field value stored back by the canonicalizer for an
amount field. -/
def amtField (x : PyNum) : PyNum := toPyNum (normalize_currency_amount x).1

/-! ### strptime with formats %H:%M:%S and %H:%M

CPython strptime compiles the format to a regex: %H becomes
2[0-3]|[0-1]\d|\d, %M becomes [0-5]\d|\d, %S becomes 6[0-1]|[0-5]\d|\d,
matched from the start with backtracking across alternatives; afterwards
any leftover input raises, and the datetime constructor rejects seconds
above 59.  oor is Option alternation; the xAlt functions feed each regex
alternative to a continuation, realising the backtracking. -/

def oor {α : Type} (x y : Option α) : Option α :=
  match x with
  | some a => some a
  | Option.none => y

def hourAlt {α : Type} (l : List Char) (k : Nat → List Char → Option α) : Option α :=
  match l with
  | c1 :: c2 :: rest =>
    oor (if c1 = '2' ∧ c2.isDigit ∧ c2 ≤ '3' then k (20 + (c2.toNat - 48)) rest else Option.none)
      (oor (if (c1 = '0' ∨ c1 = '1') ∧ c2.isDigit then
              k (10 * (c1.toNat - 48) + (c2.toNat - 48)) rest else Option.none)
        (if c1.isDigit then k (c1.toNat - 48) (c2 :: rest) else Option.none))
  | [c1] => if c1.isDigit then k (c1.toNat - 48) [] else Option.none
  | [] => Option.none

def minuteAlt {α : Type} (l : List Char) (k : Nat → List Char → Option α) : Option α :=
  match l with
  | c1 :: c2 :: rest =>
    oor (if c1.isDigit ∧ c1 ≤ '5' ∧ c2.isDigit then
           k (10 * (c1.toNat - 48) + (c2.toNat - 48)) rest else Option.none)
      (if c1.isDigit then k (c1.toNat - 48) (c2 :: rest) else Option.none)
  | [c1] => if c1.isDigit then k (c1.toNat - 48) [] else Option.none
  | [] => Option.none

/-- The seconds group is last in the pattern, so no later failure can make
the regex backtrack out of it: the first matching alternative wins. -/
def secondGroup (l : List Char) : Option (Nat × List Char) :=
  match l with
  | c1 :: c2 :: rest =>
    if c1 = '6' ∧ c2.isDigit ∧ c2 ≤ '1' then some (60 + (c2.toNat - 48), rest)
    else if c1.isDigit ∧ c1 ≤ '5' ∧ c2.isDigit then
      some (10 * (c1.toNat - 48) + (c2.toNat - 48), rest)
    else if c1.isDigit then some (c1.toNat - 48, c2 :: rest)
    else Option.none
  | [c1] => if c1.isDigit then some (c1.toNat - 48, []) else Option.none
  | [] => Option.none

def expectColon {α : Type} (l : List Char) (k : List Char → Option α) : Option α :=
  match l with
  | c :: rest => if c = ':' then k rest else Option.none
  | [] => Option.none

/-- The regex phase of strptime(s, %H:%M:%S): value groups plus leftover. -/
def regexHMS (l : List Char) : Option (Nat × Nat × Nat × List Char) :=
  hourAlt l fun h r1 =>
    expectColon r1 fun r2 =>
      minuteAlt r2 fun m r3 =>
        expectColon r3 fun r4 =>
          (secondGroup r4).map fun p => (h, m, p.1, p.2)

/-- datetime.strptime(s, %H:%M:%S): regex match, then the leftover check,
then the datetime constructor rejecting seconds above 59.  These last two
stages do not re-enter the regex. -/
def strptimeHMS (l : List Char) : Option (Nat × Nat × Nat) :=
  match regexHMS l with
  | some (h, m, s, rest) => if rest = [] ∧ s ≤ 59 then some (h, m, s) else Option.none
  | Option.none => Option.none

/-- The regex phase of strptime(s, %H:%M). -/
def regexHM (l : List Char) : Option (Nat × Nat × List Char) :=
  hourAlt l fun h r1 =>
    expectColon r1 fun r2 =>
      (minuteAlt r2 fun m r3 => some (m, r3)).map fun p => (h, p.1, p.2)

/-- datetime.strptime(s, %H:%M). -/
def strptimeHM (l : List Char) : Option (Nat × Nat) :=
  match regexHM l with
  | some (h, m, rest) => if rest = [] then some (h, m) else Option.none
  | Option.none => Option.none

/-- Digit character of a value below ten. -/
def dChar : Nat → Char
  | 0 => '0' | 1 => '1' | 2 => '2' | 3 => '3' | 4 => '4'
  | 5 => '5' | 6 => '6' | 7 => '7' | 8 => '8' | 9 => '9'
  | _ => '0'

/-- Two-digit zero-padded rendering, as strftime %H, %M, %S produce. -/
def pad2 (n : Nat) : List Char := [dChar (n / 10), dChar (n % 10)]

/-- strftime(%H:%M:%S); the %H:%M:00 output of the minute-only branch is
the same rendering with zero seconds. -/
def fmtHMS (h m s : Nat) : List Char :=
  pad2 h ++ ':' :: pad2 m ++ ':' :: pad2 s

/-! ### Field normalizers of DataCanonicalizer -/

/-- Is an optional string absent, empty or whitespace-only?  This is the
guard not s or s.strip() == '' used across the canonicalizer. -/
def blankS : Option String → Bool
  | Option.none => true
  | some s => s = "" || pyStrip s.toList = []

/-- canonicalize_time: strip am/pm markers in source order, strip
whitespace, try %H:%M:%S then %H:%M, rendering back with strftime. -/
def canonicalize_time (t : Option String) : Option String :=
  match t with
  | Option.none => Option.none
  | some s =>
    if s = "" ∨ pyStrip s.toList = [] then Option.none
    else
      let u := pyStrip (replaceSub ['P', 'M'] [] (replaceSub ['A', 'M'] []
        (replaceSub ['p', 'm'] [] (replaceSub ['a', 'm'] [] s.toList))))
      match strptimeHMS u with
      | some (h, m, sec) => some (String.mk (fmtHMS h m sec))
      | Option.none =>
        match strptimeHM u with
        | some (h, m) => some (String.mk (fmtHMS h m 0))
        | Option.none => Option.none

def isLeap (y : Nat) : Bool := (y % 4 = 0 && ¬(y % 100 = 0)) || y % 400 = 0

def daysInMonth (y m : Nat) : Nat :=
  if m = 2 then (if isLeap y then 29 else 28)
  else if m = 4 ∨ m = 6 ∨ m = 9 ∨ m = 11 then 30 else 31

/-- Valid proleptic-Gregorian calendar date within datetime year bounds. -/
def validYMD (y m d : Nat) : Bool :=
  1 ≤ y && y ≤ 9999 && 1 ≤ m && m ≤ 12 && 1 ≤ d && d ≤ daysInMonth y m

/-- Numeric value of two digit characters. -/
def n2 (a b : Char) : Nat := 10 * (a.toNat - 48) + (b.toNat - 48)

/-- Numeric value of four digit characters. -/
def n4 (a b c d : Char) : Nat := 100 * n2 a b + n2 c d

/-- Exactly the ten-character shape dddd-dd-dd. -/
def isoTenB (s : String) : Bool :=
  match s.toList with
  | [a, b, c, d, '-', e, f, '-', g, h] =>
    a.isDigit && b.isDigit && c.isDigit && d.isDigit &&
      e.isDigit && f.isDigit && g.isDigit && h.isDigit
  | _ => false

/-- Does datetime.strptime(s, %Y-%m-%d) succeed?  The %Y group is exactly
four digits, %m and %d validate ranges, and the datetime constructor
enforces the calendar. -/
def isoStrptimeOk (s : String) : Bool :=
  match s.toList with
  | [a, b, c, d, '-', e, f, '-', g, h] =>
    a.isDigit && b.isDigit && c.isDigit && d.isDigit &&
      e.isDigit && f.isDigit && g.isDigit && h.isDigit &&
      validYMD (n4 a b c d) (n2 e f) (n2 g h)
  | _ => false

/-- Modelled from the spec: canonicalize_date delegates multi-format
parsing to the external dateutil library, which is not part of this
repository.  Spec section 4.1 fixes the behaviour needed here:
already-ISO text passes through (a valid ISO date parses to itself and
strftime %Y-%m-%d reproduces it); absent or unparseable input yields
none.  The further dateutil input formats are outside the modelled
domain and conservatively map to none. -/
def canonicalize_date (d : Option String) : Option String :=
  match d with
  | Option.none => Option.none
  | some s =>
    if s = "" ∨ pyStrip s.toList = [] then Option.none
    else if isoStrptimeOk s then some s else Option.none

/-- clean_string: collapse internal whitespace runs, strip the ends, and
turn an empty result (or empty input) into none. -/
def clean_string : Option String → Option String
  | Option.none => Option.none
  | some s =>
    if s = "" then Option.none
    else
      let r := pyStrip (collapseWs s.toList)
      if r = [] then Option.none else some (String.mk r)

/-- The ISO mapping table of DataCanonicalizer, in source order. -/
def CURRENCY_MAPPINGS : List (String × String) :=
  [("dollar", "USD"), ("usd", "USD"), ("$", "USD"),
   ("rupee", "INR"), ("inr", "INR"), ("₹", "INR"),
   ("euro", "EUR"), ("eur", "EUR"), ("€", "EUR"),
   ("pound", "GBP"), ("gbp", "GBP"), ("£", "GBP"),
   ("yen", "JPY"), ("jpy", "JPY"), ("¥", "JPY"),
   ("franc", "CHF"), ("chf", "CHF"),
   ("australian dollar", "AUD"), ("aud", "AUD"),
   ("canadian dollar", "CAD"), ("cad", "CAD")]

/-- canonicalize_currency_code: default USD when absent or empty, ISO
passthrough for three-letter alphabetic input after upper().strip(), else
the first mapping whose key occurs in the lowercased text, else USD. -/
def canonicalize_currency_code (currency : Option String) : String :=
  match currency with
  | Option.none => "USD"
  | some v =>
    if v = "" then "USD"
    else
      let cu := pyStrip (v.toList.map upChar)
      if cu.length = 3 ∧ cu.all isAlphaAsciiC then String.mk cu
      else
        match CURRENCY_MAPPINGS.find? (fun p => hasSub p.1.toList (cu.map downChar)) with
        | some p => p.2
        | Option.none => "USD"

/-! ### Vendor canonicalization -/

/-- Split into maximal whitespace-free runs. -/
def splitWords : List Char → List (List Char)
  | [] => []
  | [c] => if pyIsSpace c then [] else [[c]]
  | c1 :: c2 :: rest =>
    let ws := splitWords (c2 :: rest)
    if pyIsSpace c1 then ws
    else if pyIsSpace c2 then [c1] :: ws
    else
      match ws with
      | w :: tail => (c1 :: w) :: tail
      | [] => [[c1]]

def joinWords (ws : List (List Char)) : List Char := List.intercalate [' '] ws

def vendorSuffixes : List (List Char) :=
  [['i', 'n', 'c'], ['l', 't', 'd'], ['l', 'l', 'c'],
   ['c', 'o', 'r', 'p'], ['c', 'o', 'm', 'p', 'a', 'n', 'y'], ['p', 'v', 't']]

/-- The name-normalization core of canonicalize_vendor_name: lowercase,
keep [a-z0-9\s], collapse and strip whitespace, then remove each legal
suffix as a whole word, re-collapsing after each removal.  After the
first collapse-and-strip the text is words of word-characters joined by
single spaces, so the \b-delimited removals plus re-collapsing are
exactly word filtering; the model uses that word form. -/
def normVendorName (s : String) : String :=
  let base := (s.toList.map downChar).filter
    (fun c => ('a' ≤ c && c ≤ 'z') || c.isDigit || pyIsSpace c)
  let ws := splitWords base
  let final := vendorSuffixes.foldl (fun acc suf => acc.filter (fun w => ¬(w = suf))) ws
  String.mk (joinWords final)

/-- The vendor identity record.  A Python dict built with a fixed literal;
first_seen = none models the sentinel dict that carries no first_seen
key at all. -/
structure VendorCanonical where
  canonical_id : String
  normalized_name : String
  raw_input : Option String
  first_seen : Option String
deriving DecidableEq, Repr

/-- canonicalize_vendor_name.  uid stands for uuid4().hex[:8].upper() and
now for datetime.now().isoformat(), both fresh per call. -/
def canonicalize_vendor_name (uid now : String) (vendor_name : Option String) :
    VendorCanonical :=
  if blankS vendor_name then
    { canonical_id := "VENDOR_UNKNOWN"
      normalized_name := "Unknown"
      raw_input := vendor_name
      first_seen := Option.none }
  else
    { canonical_id := "VENDOR_" ++ uid
      normalized_name := normVendorName (vendor_name.getD "")
      raw_input := vendor_name
      first_seen := some now }

/-! ### The invoice document shape -/

structure Meta where
  date : Option String
  time : Option String
  due_date : Option String
  company_name : Option String
  invoice_number : Option String
  invoice_type : Option String
deriving DecidableEq, Repr

structure VendorInfo where
  vendor_name : Option String
  vendor_name_canonical : Option VendorCanonical
  vendor_address : Option String
  vendor_tax_id : Option String
deriving DecidableEq, Repr

structure Discount where
  has_discount : Option Bool
  discount_percent : PyNum
  discount_amount : PyNum
  actual_price : PyNum
  discounted_price : PyNum
  discount_price : PyNum
deriving DecidableEq, Repr

structure Item where
  item_name : Option String
  unit : Option String
  quantity : PyNum
  unit_price : PyNum
  line_total : PyNum
  discount : Option Discount
deriving DecidableEq, Repr

structure Tax where
  has_tax : Option Bool
  tax_percent : PyNum
  tax_amount : PyNum
  tax_type : Option String
deriving DecidableEq, Repr

structure Shipping where
  shipping_amount : PyNum
deriving DecidableEq, Repr

structure Pricing where
  subtotal : PyNum
  total_amount : PyNum
  total_discount : PyNum
  currency : Option String
  tax : Option Tax
  shipping : Option Shipping
deriving DecidableEq, Repr

structure PaymentInfo where
  payment_terms : Option String
  bank_account : Option String
  po_reference : Option String
deriving DecidableEq, Repr

/-- A raw or canonical document; a none section models an absent key (or
one whose value fails the isinstance guard of the visiting code). -/
structure Invoice where
  invoice_metadata : Option Meta
  vendor_info : Option VendorInfo
  items : Option (List Item)
  pricing_summary : Option Pricing
  payment_info : Option PaymentInfo
deriving DecidableEq, Repr

/-! ### canonicalize_invoice -/

def canonMeta (m : Meta) : Meta :=
  { date := canonicalize_date m.date
    time := canonicalize_time m.time
    due_date := canonicalize_date m.due_date
    company_name := clean_string m.company_name
    invoice_number := clean_string m.invoice_number
    invoice_type := clean_string m.invoice_type }

def canonVendorInfo (uid now : String) (v : VendorInfo) : VendorInfo :=
  { vendor_name := v.vendor_name
    vendor_name_canonical := some (canonicalize_vendor_name uid now v.vendor_name)
    vendor_address := clean_string v.vendor_address
    vendor_tax_id := clean_string v.vendor_tax_id }

/-- The discount sub-dict transformation: note the normalized
discounted_price lands under the new key discount_price while the
discounted_price key itself is left untouched. -/
def canonDiscount (d : Discount) : Discount :=
  { has_discount := d.has_discount
    discount_percent := amtField d.discount_percent
    discount_amount := amtField d.discount_amount
    actual_price := amtField d.actual_price
    discounted_price := d.discounted_price
    discount_price := amtField d.discounted_price }

def canonItem (it : Item) : Item :=
  { item_name := clean_string it.item_name
    unit := clean_string it.unit
    quantity := amtField it.quantity
    unit_price := amtField it.unit_price
    line_total := amtField it.line_total
    discount := it.discount.map canonDiscount }

def canonTax (t : Tax) : Tax :=
  { has_tax := t.has_tax
    tax_percent := amtField t.tax_percent
    tax_amount := amtField t.tax_amount
    tax_type := clean_string t.tax_type }

/-- The pricing-summary transformation, in source order: the amounts are
normalized in place first, so the later currency detection reads the
already-normalized total_amount value (detected_currency or
canonicalize_currency_code(raw) is getD on the detection result, since the
detected value is never the empty string). -/
def canonPricing (p : Pricing) : Pricing :=
  { subtotal := amtField p.subtotal
    total_amount := amtField p.total_amount
    total_discount := amtField p.total_discount
    currency := some ((normalize_currency_amount (amtField p.total_amount)).2.getD
      (canonicalize_currency_code p.currency))
    tax := p.tax.map canonTax
    shipping := p.shipping.map (fun sh => { shipping_amount := amtField sh.shipping_amount }) }

def canonPayment (pay : PaymentInfo) : PaymentInfo :=
  { payment_terms := clean_string pay.payment_terms
    bank_account := clean_string pay.bank_account
    po_reference := clean_string pay.po_reference }

/-- canonicalize_invoice: visit each present section independently. -/
def canonicalize_invoice (uid now : String) (inv : Invoice) : Invoice :=
  { invoice_metadata := inv.invoice_metadata.map canonMeta
    vendor_info := inv.vendor_info.map (canonVendorInfo uid now)
    items := inv.items.map (fun l => l.map canonItem)
    pricing_summary := inv.pricing_summary.map canonPricing
    payment_info := inv.payment_info.map canonPayment }

/-! ### ConfidenceScorer -/

def businessIndicators : List String :=
  ["company", "corp", "inc", "ltd", "llc", "pvt", "gmbh", "ag", "industries", "solutions"]

/-- score_company_name: length credit up to 100 plus 50 or 30 for a
business keyword; 0 when empty or whitespace. -/
def score_company_name : Option String → ℚ
  | Option.none => 0
  | some s =>
    if s = "" ∨ pyStrip s.toList = [] then 0
    else
      let lengthScore := min ((s.length : ℚ) / 50) 1 * 100
      let hasInd := businessIndicators.any
        (fun ind => hasSub ind.toList (s.toList.map downChar))
      lengthScore + (if hasInd then 50 else 30)

/-- score_invoice_number. -/
def score_invoice_number : Option String → ℚ
  | Option.none => 0
  | some s =>
    if s = "" then 0
    else
      let inv := pyStrip s.toList
      let hasAlnum := inv.any Char.isAlphanum
      let hasDigits := inv.any Char.isDigit
      if ¬(hasAlnum = true) ∨ ¬(hasDigits = true) then 30
      else if 5 ≤ inv.length ∧ inv.length ≤ 20 then 100
      else 70

/-- score_date: the regex match of ^\d{4}-\d{2}-\d{2}$ also accepts one
trailing newline (the regex dollar), in which case strptime still fails
on the leftover character. -/
def score_date : Option String → ℚ
  | Option.none => 0
  | some s =>
    if s = "" then 0
    else if isoTenB s || isoTenB (String.mk (s.toList.dropLast)) && s.toList.getLast? = some '\n' then
      if isoStrptimeOk s then 100 else 50
    else 60

/-- Shape dd:dd:dd, with the trailing-newline tolerance of the regex
dollar. -/
def timeShapeB (s : String) : Bool :=
  let core : List Char → Bool := fun l =>
    match l with
    | [a, b, ':', c, d, ':', e, f] =>
      a.isDigit && b.isDigit && c.isDigit && d.isDigit && e.isDigit && f.isDigit
    | _ => false
  core s.toList || (core s.toList.dropLast && s.toList.getLast? = some '\n')

/-- score_time: absent is optional and fully credited. -/
def score_time : Option String → ℚ
  | Option.none => 100
  | some s =>
    if s = "" then 100
    else if timeShapeB s then
      if (strptimeHMS s.toList).isSome then 100 else 50
    else 60

/-- score_vendor_name. -/
def score_vendor_name : Option String → ℚ
  | Option.none => 0
  | some s =>
    if s = "" ∨ pyStrip s.toList = [] then 0
    else
      let lengthScore := min ((s.length : ℚ) / 40) 1 * 100
      if ¬(s.toList.any isAlphaAsciiC = true) then 20
      else lengthScore + 20

/-- A present, non-None field in the required-fields check. -/
def presentOptS : Option String → Bool
  | Option.none => false
  | some _ => true

def presentNum : PyNum → Bool
  | PyNum.none => false
  | _ => true

/-- Per-item score of the score_items loop: 25 per present required field
plus the 10-point discount bonus. -/
def itemScore (it : Item) : ℚ :=
  (if presentOptS it.item_name then 25 else 0) +
    (if presentNum it.quantity then 25 else 0) +
    (if presentNum it.unit_price then 25 else 0) +
    (if presentNum it.line_total then 25 else 0) +
    (match it.discount with
     | some d =>
       if d.has_discount = some true then
         if truthyNum d.actual_price ∧ truthyNum d.discounted_price then 10 else 0
       else 0
     | Option.none => 0)

/-- score_items: average of the per-item scores, capped at 100. -/
def score_items (items : List Item) : ℚ :=
  if items = [] then 0
  else min ((items.map itemScore).sum / (items.length : ℚ)) 100

/-- score_pricing: weighted completeness.  An absent tax dict behaves as
the empty dict, whose falsy has_tax lands in the partial-credit branch.
An absent or empty (falsy) pricing dict scores 0. -/
def score_pricing : Option Pricing → ℚ
  | Option.none => 0
  | some pr =>
    let s1 : ℚ := if presentNum pr.subtotal then 30 else 0
    let t1 : ℚ := if presentNum pr.subtotal then 30 else 0
    let s2 : ℚ :=
      match pr.tax with
      | some t =>
        if t.has_tax = some true then
          if presentNum t.tax_amount ∧ presentNum t.tax_percent then 30 else 0
        else 20
      | Option.none => 20
    let t2 : ℚ := 30
    let s3 : ℚ := if presentNum pr.total_amount then 40 else 0
    let t3 : ℚ := if presentNum pr.total_amount then 40 else 0
    let tp := t1 + t2 + t3
    if 0 < tp then (s1 + s2 + s3) / tp * 100 else 0

/-- The FIELD_WEIGHTS table, in source order. -/
def FIELD_WEIGHTS : List (String × ℚ) :=
  [("company_name", 10), ("invoice_number", 8), ("date", 12), ("time", 3),
   ("vendor_name", 10), ("items", 25), ("subtotal", 10), ("tax", 12),
   ("total_amount", 14)]

/-- FIELD_WEIGHTS.get(field, 10). -/
def weightOf (f : String) : ℚ :=
  match FIELD_WEIGHTS.find? (fun p => p.1 = f) with
  | some p => p.2
  | Option.none => 10

structure ConfResult where
  overall_confidence : ℚ
  field_confidence : List (String × ℚ)
  confidence_level : String
  status : String
deriving DecidableEq, Repr

def confidenceLevel (score : ℚ) : String :=
  if 90 ≤ score then "high"
  else if 70 ≤ score then "medium"
  else if 50 ≤ score then "low"
  else "very_low"

/-- The seven per-field scores of calculate_confidence, in insertion
order, with the accessors invoice_data.get(section, default).get(field)
of the source. -/
def fieldScores (inv : Invoice) : List (String × ℚ) :=
  [("company_name", score_company_name (inv.invoice_metadata.bind Meta.company_name)),
   ("invoice_number", score_invoice_number (inv.invoice_metadata.bind Meta.invoice_number)),
   ("date", score_date (inv.invoice_metadata.bind Meta.date)),
   ("time", score_time (inv.invoice_metadata.bind Meta.time)),
   ("vendor_name", score_vendor_name (inv.vendor_info.bind VendorInfo.vendor_name)),
   ("items", score_items (inv.items.getD [])),
   ("pricing", score_pricing inv.pricing_summary)]

/-- calculate_confidence: weighted average with the default weight 10 for
fields outside the table, capped at 100; thresholds 85 and 60 assign the
status, the display level uses 90/70/50, and the returned numbers are
rounded to 2 decimals. -/
def calculate_confidence (inv : Invoice) : ConfResult :=
  let fs := fieldScores inv
  let tws := (fs.map (fun p => p.2 * weightOf p.1)).sum
  let tw := (fs.map (fun p => weightOf p.1)).sum
  let overall0 := if 0 < tw then tws / tw else 0
  let overall := min overall0 100
  let status :=
    if 85 ≤ overall then "auto_approved"
    else if 60 ≤ overall then "needs_review"
    else "low_confidence"
  { overall_confidence := round2 overall
    field_confidence := fs.map (fun p => (p.1, round2 p.2))
    confidence_level := confidenceLevel overall
    status := status }

/-! ### InvoiceValidator -/

def validate_company_name (name : Option String) : Bool × Option String :=
  if blankS name then (false, some "Company name is required")
  else
    let s := name.getD ""
    if s.length < 2 then (false, some "Company name too short (minimum 2 characters)")
    else if 200 < s.length then (false, some "Company name too long (maximum 200 characters)")
    else (true, Option.none)

/-- validate_date matches only the pattern ^\d{4}-\d{2}-\d{2}$ (with the
trailing-newline tolerance of the regex dollar); no calendar check. -/
def validate_date (date : Option String) : Bool × Option String :=
  match date with
  | Option.none => (false, some "Date is required")
  | some s =>
    if s = "" then (false, some "Date is required")
    else if isoTenB s || isoTenB (String.mk (s.toList.dropLast)) && s.toList.getLast? = some '\n' then
      (true, Option.none)
    else (false, some "Date must be in YYYY-MM-DD format")

def validate_time (time : Option String) : Bool × Option String :=
  match time with
  | Option.none => (true, Option.none)
  | some s =>
    if s = "" then (true, Option.none)
    else if timeShapeB s then (true, Option.none)
    else (false, some "Time must be in HH:MM:SS format")

/-- The first-failure scan of validate_items, carrying the item index for
the message. -/
def validateItemsFrom (i : Nat) : List Item → Bool × Option String
  | [] => (true, Option.none)
  | it :: rest =>
    if ¬(presentOptS it.item_name = true) ∨ it.item_name = some "" then
      (false, some ("Item " ++ toString i ++ " is missing name"))
    else
      match it.quantity with
      | PyNum.num _ =>
        match it.unit_price with
        | PyNum.num _ => validateItemsFrom (i + 1) rest
        | _ => (false, some ("Item " ++ toString i ++ " has invalid unit_price"))
      | _ => (false, some ("Item " ++ toString i ++ " has invalid quantity"))

def validate_items (items : Option (List Item)) : Bool × Option String :=
  match items with
  | Option.none => (false, some "Items must be a non-empty list")
  | some l =>
    if l = [] then (false, some "Items must be a non-empty list")
    else validateItemsFrom 0 l

def validate_pricing (pricing : Option Pricing) : Bool × Option String :=
  match pricing with
  | Option.none => (false, some "Pricing summary is required")
  | some pr =>
    match pr.subtotal with
    | PyNum.none => (false, some "Subtotal is required")
    | PyNum.str _ => (false, some "Subtotal must be numeric")
    | PyNum.num _ =>
      match pr.total_amount with
      | PyNum.none => (false, some "Total amount is required")
      | PyNum.str _ => (false, some "Total amount must be numeric")
      | PyNum.num _ => (true, Option.none)

/-- validate_invoice: first failure in fixed order, with section
prefixes. -/
def validate_invoice (inv : Invoice) : Bool × Option String :=
  let meta := inv.invoice_metadata
  let r1 := validate_company_name (meta.bind Meta.company_name)
  if ¬(r1.1 = true) then (false, r1.2.map (fun e => "Metadata: " ++ e))
  else
    let r2 := validate_date (meta.bind Meta.date)
    if ¬(r2.1 = true) then (false, r2.2.map (fun e => "Metadata: " ++ e))
    else
      let r3 := validate_time (meta.bind Meta.time)
      if ¬(r3.1 = true) then (false, r3.2.map (fun e => "Metadata: " ++ e))
      else
        let r4 := validate_items inv.items
        if ¬(r4.1 = true) then (false, r4.2.map (fun e => "Items: " ++ e))
        else
          let r5 := validate_pricing inv.pricing_summary
          if ¬(r5.1 = true) then (false, r5.2.map (fun e => "Pricing: " ++ e))
          else (true, Option.none)

/-! ### The pipeline step of the extract route -/

structure PipelineOut where
  canonical : Invoice
  valid : Bool
  val_error : Option String
  confidence : ConfResult
  status : String
deriving DecidableEq, Repr

/-- Lines 113-116 of extract_routes.py: canonicalize, validate, score,
and take the status from the scorer result alone (the .get default
needs_review is dead because the scorer always returns a status). -/
def extract_pipeline (uid now : String) (doc : Invoice) : PipelineOut :=
  let canonical := canonicalize_invoice uid now doc
  let v := validate_invoice canonical
  let conf := calculate_confidence canonical
  { canonical := canonical
    valid := v.1
    val_error := v.2
    confidence := conf
    status := conf.status }

/-! ### Concrete documents used by the claim theorems -/

/-- The all-absent document. -/
def emptyInv : Invoice :=
  { invoice_metadata := Option.none
    vendor_info := Option.none
    items := Option.none
    pricing_summary := Option.none
    payment_info := Option.none }

/-- A document whose total-amount text carries a dollar symbol while the
textual currency field says rupee. -/
def docC1 : Invoice :=
  { invoice_metadata := Option.none
    vendor_info := Option.none
    items := Option.none
    pricing_summary := some
      { subtotal := PyNum.none
        total_amount := PyNum.str "$100.00"
        total_discount := PyNum.none
        currency := some "rupee"
        tax := Option.none
        shipping := Option.none }
    payment_info := Option.none }

/-- A document with only a vendor section. -/
def docC2v : Invoice :=
  { invoice_metadata := Option.none
    vendor_info := some
      { vendor_name := some "Acme Corp"
        vendor_name_canonical := Option.none
        vendor_address := Option.none
        vendor_tax_id := Option.none }
    items := Option.none
    pricing_summary := Option.none
    payment_info := Option.none }

/-- A 201-character company name containing a business keyword: long
enough for the full length credit and the keyword bonus, yet over the
200-character validation limit. -/
def cName : String := String.mk (List.replicate 198 'A') ++ "Inc"

/-- A 50-character company name containing a business keyword. -/
def c50Name : String := String.mk (List.replicate 47 'A') ++ "inc"

/-- A document that scores auto-approval yet fails structural validation
on the over-long company name. -/
def docC3 : Invoice :=
  { invoice_metadata := some
      { date := some "2025-12-29"
        time := Option.none
        due_date := Option.none
        company_name := some cName
        invoice_number := some "INV-12345"
        invoice_type := Option.none }
    vendor_info := some
      { vendor_name := some "Tech Solutions International Private Ltd"
        vendor_name_canonical := Option.none
        vendor_address := Option.none
        vendor_tax_id := Option.none }
    items := some [
      { item_name := some "Steel Rods"
        unit := Option.none
        quantity := PyNum.num 10
        unit_price := PyNum.num 50
        line_total := PyNum.num 500
        discount := some
          { has_discount := some true
            discount_percent := PyNum.none
            discount_amount := PyNum.none
            actual_price := PyNum.num 600
            discounted_price := PyNum.num 500
            discount_price := PyNum.none } }]
    pricing_summary := some
      { subtotal := PyNum.num 500
        total_amount := PyNum.num 500
        total_discount := PyNum.none
        currency := some "USD"
        tax := some
          { has_tax := some true
            tax_percent := PyNum.num 10
            tax_amount := PyNum.num 50
            tax_type := Option.none }
        shipping := Option.none }
    payment_info := Option.none }

/-- A well-formed document whose date has the right shape but is not a
calendar date. -/
def docC8 : Invoice :=
  { invoice_metadata := some
      { date := some "2025-99-99"
        time := Option.none
        due_date := Option.none
        company_name := some "Acme Corporation"
        invoice_number := some "INV-1"
        invoice_type := Option.none }
    vendor_info := Option.none
    items := some [
      { item_name := some "Widget"
        unit := Option.none
        quantity := PyNum.num 2
        unit_price := PyNum.num 5
        line_total := PyNum.num 10
        discount := Option.none }]
    pricing_summary := some
      { subtotal := PyNum.num 10
        total_amount := PyNum.num 10
        total_discount := PyNum.none
        currency := Option.none
        tax := Option.none
        shipping := Option.none }
    payment_info := Option.none }

/-- A discount whose discounted_price is textual, so its normalized form
differs visibly from the raw value. -/
def dC10 : Discount :=
  { has_discount := some true
    discount_percent := PyNum.none
    discount_amount := PyNum.none
    actual_price := PyNum.num 600
    discounted_price := PyNum.str "50,00"
    discount_price := PyNum.none }

/-- An item carrying dC10 as its discount sub-dict. -/
def itC10 : Item :=
  { item_name := some "Steel Rods"
    unit := Option.none
    quantity := PyNum.num 10
    unit_price := PyNum.num 50
    line_total := PyNum.num 500
    discount := some dC10 }

/-! ### Character-class bridge lemmas -/

theorem toNat_ofNat_valid (n : Nat) (h : n < 55296) : (Char.ofNat n).toNat = n := by
  rw [Char.ofNat, dif_pos (Or.inl h)]
  simp [Char.ofNatAux, Char.toNat, UInt32.ofNat', UInt32.toNat]

theorem le_iff_toNat (a b : Char) : a ≤ b ↔ a.toNat ≤ b.toNat := Iff.rfl

theorem char_eq_iff_toNat (a b : Char) : a = b ↔ a.toNat = b.toNat := by
  constructor
  · intro h; rw [h]
  · intro h
    apply Char.ext
    apply UInt32.eq_of_toBitVec_eq
    exact BitVec.eq_of_toNat_eq h

theorem isDigit_iff (c : Char) : c.isDigit = true ↔ 48 ≤ c.toNat ∧ c.toNat ≤ 57 := by
  simp only [Char.isDigit, Bool.and_eq_true, decide_eq_true_eq, ge_iff_le]
  exact Iff.rfl

theorem pyIsSpace_iff (c : Char) :
    pyIsSpace c = true ↔
      c.toNat = 32 ∨ c.toNat = 9 ∨ c.toNat = 10 ∨ c.toNat = 13 ∨ c.toNat = 11 ∨ c.toNat = 12 := by
  simp only [pyIsSpace, Bool.or_eq_true, decide_eq_true_eq]
  rw [char_eq_iff_toNat, char_eq_iff_toNat, char_eq_iff_toNat, char_eq_iff_toNat,
    char_eq_iff_toNat, char_eq_iff_toNat]
  tauto

theorem digit_not_space (c : Char) (h : c.isDigit = true) : pyIsSpace c = false := by
  have h1 := (isDigit_iff c).1 h
  rw [← Bool.not_eq_true, pyIsSpace_iff]
  omega

/-! ### Idempotence of whitespace cleaning -/

theorem stripTrail_cons (c : Char) (l : List Char) :
    stripTrail (c :: l) =
      match stripTrail l with
      | [] => if pyIsSpace c then [] else [c]
      | r => c :: r := rfl

theorem dw_head {p : Char → Bool} {l : List Char} {c : Char} {r : List Char}
    (h : l.dropWhile p = c :: r) : p c = false := by
  induction l with
  | nil => simp [List.dropWhile] at h
  | cons a t ih =>
    rw [List.dropWhile_cons] at h
    split at h
    · exact ih h
    · cases h
      rename_i hneg
      exact Bool.not_eq_true _ ▸ hneg

theorem stripTrail_head {l : List Char} {c : Char} {r : List Char}
    (h : stripTrail l = c :: r) : ∃ t, l = c :: t := by
  cases l with
  | nil => simp [stripTrail] at h
  | cons a t =>
    rw [stripTrail_cons] at h
    rcases ht : stripTrail t with _ | ⟨x, xs⟩ <;> rw [ht] at h
    · by_cases hsp : pyIsSpace a = true
      · rw [if_pos hsp] at h; cases h
      · rw [if_neg hsp] at h; cases h; exact ⟨t, rfl⟩
    · cases h; exact ⟨t, rfl⟩

theorem stripTrail_idem (l : List Char) : stripTrail (stripTrail l) = stripTrail l := by
  induction l with
  | nil => rfl
  | cons c rest ih =>
    rw [stripTrail_cons]
    rcases ht : stripTrail rest with _ | ⟨x, xs⟩
    · by_cases hsp : pyIsSpace c = true
      · rw [if_pos hsp]; rfl
      · rw [if_neg hsp, stripTrail_cons, stripTrail, if_neg hsp]
    · rw [ht] at ih
      rw [stripTrail_cons, ih]

theorem stripTrail_mem {l : List Char} {x : Char} (h : x ∈ stripTrail l) : x ∈ l := by
  induction l with
  | nil => simp [stripTrail] at h
  | cons c rest ih =>
    rw [stripTrail_cons] at h
    rcases ht : stripTrail rest with _ | ⟨y, ys⟩ <;> rw [ht] at h
    · by_cases hsp : pyIsSpace c = true
      · rw [if_pos hsp] at h; cases h
      · rw [if_neg hsp] at h
        simp at h
        simp [h]
    · rcases List.mem_cons.1 h with h1 | h2
      · simp [h1]
      · exact List.mem_cons_of_mem _ (ih (ht ▸ h2))

theorem dropWhile_mem {p : Char → Bool} {l : List Char} {x : Char}
    (h : x ∈ l.dropWhile p) : x ∈ l := by
  induction l with
  | nil => simp [List.dropWhile] at h
  | cons c rest ih =>
    rw [List.dropWhile_cons] at h
    split at h
    · exact List.mem_cons_of_mem _ (ih h)
    · exact h

theorem pyStrip_mem {l : List Char} {x : Char} (h : x ∈ pyStrip l) : x ∈ l :=
  dropWhile_mem (stripTrail_mem h)

theorem pyStrip_idem (l : List Char) : pyStrip (pyStrip l) = pyStrip l := by
  unfold pyStrip
  rcases hs : stripTrail (l.dropWhile pyIsSpace) with _ | ⟨c, r⟩
  · rfl
  · obtain ⟨t, ht⟩ := stripTrail_head hs
    have hc : pyIsSpace c = false := dw_head ht
    rw [List.dropWhile_cons_of_neg (by simp [hc])]
    rw [← hs, stripTrail_idem]

theorem pyStrip_nonspace (l : List Char) (h : ∀ c ∈ l, pyIsSpace c = false) :
    pyStrip l = l := by
  have hst : ∀ m : List Char, (∀ c ∈ m, pyIsSpace c = false) → stripTrail m = m := by
    intro m
    induction m with
    | nil => intro _; rfl
    | cons c rest ih =>
      intro hm
      rw [stripTrail_cons, ih (fun x hx => hm x (List.mem_cons_of_mem _ hx))]
      cases rest with
      | nil => simp [hm c (List.mem_cons_self c [])]
      | cons y ys => rfl
  unfold pyStrip
  cases l with
  | nil => rfl
  | cons c rest =>
    rw [List.dropWhile_cons_of_neg (by simp [h c (List.mem_cons_self c rest)])]
    exact hst _ h

/-- No whitespace character other than a single space, and no two adjacent
spaces: the invariant of collapsed text. -/
def collapsedB : List Char → Bool
  | [] => true
  | c :: l =>
    (!pyIsSpace c || c = ' ') &&
      (match l with
       | [] => true
       | c2 :: _ => !(pyIsSpace c && pyIsSpace c2)) && collapsedB l

theorem collapsedB_cons (c : Char) (l : List Char) :
    collapsedB (c :: l) =
      ((!pyIsSpace c || c = ' ') &&
        (match l with
         | [] => true
         | c2 :: _ => !(pyIsSpace c && pyIsSpace c2)) && collapsedB l) := rfl

theorem collapsedB_tail {c : Char} {l : List Char} (h : collapsedB (c :: l) = true) :
    collapsedB l = true := by
  rw [collapsedB_cons] at h
  simp only [Bool.and_eq_true] at h
  exact h.2

theorem collapseWsAux_cons (b : Bool) (c : Char) (l : List Char) :
    collapseWsAux b (c :: l) =
      if pyIsSpace c then
        if b then collapseWsAux true l else ' ' :: collapseWsAux true l
      else c :: collapseWsAux false l := rfl

theorem collapse_ok (l : List Char) :
    collapsedB (collapseWsAux false l) = true ∧
    collapsedB (collapseWsAux true l) = true ∧
    (∀ c r, collapseWsAux true l = c :: r → pyIsSpace c = false) := by
  induction l with
  | nil => exact ⟨rfl, rfl, fun c r h => by cases h⟩
  | cons c rest ih =>
    obtain ⟨ihF, ihT, ihH⟩ := ih
    by_cases hc : pyIsSpace c = true
    · refine ⟨?_, ?_, ?_⟩
      · rw [collapseWsAux_cons, if_pos hc, if_neg (by simp)]
        rw [collapsedB_cons]
        rcases hT : collapseWsAux true rest with _ | ⟨x, xs⟩
        · simp [collapsedB]
        · have hx : pyIsSpace x = false := ihH x xs hT
          have hT' : collapsedB (x :: xs) = true := hT ▸ ihT
          simp [hx, hT']
      · rw [collapseWsAux_cons, if_pos hc, if_pos rfl]
        exact ihT
      · intro d r hd
        rw [collapseWsAux_cons, if_pos hc, if_pos rfl] at hd
        exact ihH d r hd
    · have hc' : pyIsSpace c = false := by simpa using hc
      have hcons : collapsedB (c :: collapseWsAux false rest) = true := by
        rw [collapsedB_cons]
        rcases hF : collapseWsAux false rest with _ | ⟨x, xs⟩
        · simp [hc', collapsedB]
        · have hF' : collapsedB (x :: xs) = true := hF ▸ ihF
          simp [hc', hF']
      refine ⟨?_, ?_, ?_⟩
      · rw [collapseWsAux_cons, if_neg (by simp [hc'])]
        exact hcons
      · rw [collapseWsAux_cons, if_neg (by simp [hc'])]
        exact hcons
      · intro d r hd
        rw [collapseWsAux_cons, if_neg (by simp [hc'])] at hd
        cases hd
        exact hc'

theorem collapse_fix (l : List Char) (h : collapsedB l = true) :
    collapseWsAux false l = l := by
  induction l with
  | nil => rfl
  | cons c rest ih =>
    have htail := collapsedB_tail h
    rw [collapsedB_cons] at h
    simp only [Bool.and_eq_true, Bool.or_eq_true, Bool.not_eq_true',
      decide_eq_true_eq] at h
    by_cases hc : pyIsSpace c = true
    · have hsp : c = ' ' := by
        rcases h.1.1 with h1 | h1
        · rw [hc] at h1; cases h1
        · exact h1
      rw [collapseWsAux_cons, if_pos hc, if_neg (by simp)]
      cases rest with
      | nil => rw [hsp]; rfl
      | cons y ys =>
        have hy : pyIsSpace y = false := by
          have h2 : pyIsSpace c = false ∨ pyIsSpace y = false := by simpa using h.1.2
          rcases h2 with h2 | h2
          · rw [hc] at h2; cases h2
          · exact h2
        rw [hsp, collapseWsAux_cons, if_neg (by simp [hy])]
        have hrest := ih htail
        rw [collapseWsAux_cons, if_neg (by simp [hy])] at hrest
        have htl : collapseWsAux false ys = ys := by injection hrest
        rw [htl]
    · have hc' : pyIsSpace c = false := by simpa using hc
      rw [collapseWsAux_cons, if_neg (by simp [hc'])]
      rw [ih htail]

theorem collapsedB_dropWhile (l : List Char) (h : collapsedB l = true) :
    collapsedB (l.dropWhile pyIsSpace) = true := by
  induction l with
  | nil => exact h
  | cons c rest ih =>
    rw [List.dropWhile_cons]
    split
    · exact ih (collapsedB_tail h)
    · exact h

theorem collapsedB_stripTrail (l : List Char) (h : collapsedB l = true) :
    collapsedB (stripTrail l) = true := by
  induction l with
  | nil => exact h
  | cons c rest ih =>
    have htail := collapsedB_tail h
    rw [stripTrail_cons]
    rcases ht : stripTrail rest with _ | ⟨x, xs⟩
    · by_cases hsp : pyIsSpace c = true
      · rw [if_pos hsp]; rfl
      · rw [if_neg hsp, collapsedB_cons]
        simp [hsp, collapsedB]
    · obtain ⟨t, htt⟩ := stripTrail_head ht
      have hx : collapsedB (x :: xs) = true := ht ▸ ih htail
      rw [collapsedB_cons] at h ⊢
      simp only [Bool.and_eq_true] at h
      have hadj : (!(pyIsSpace c && pyIsSpace x)) = true := by
        subst htt
        simpa using h.1.2
      simp [h.1.1, hadj, hx]

theorem string_mk_ne_empty (c : Char) (r : List Char) : ¬(String.mk (c :: r) = "") := by
  intro he
  exact List.noConfusion (congrArg String.data he)

theorem clean_string_idem (x : Option String) :
    clean_string (clean_string x) = clean_string x := by
  cases x with
  | none => rfl
  | some s =>
    by_cases hs : s = ""
    · subst hs; rfl
    · have hinner : clean_string (some s) =
          (if pyStrip (collapseWs s.toList) = [] then Option.none
           else some (String.mk (pyStrip (collapseWs s.toList)))) := by
        rw [clean_string, if_neg hs]
      rcases hr : pyStrip (collapseWs s.toList) with _ | ⟨c, r⟩
      · rw [hinner, hr]
        rfl
      · rw [hinner, hr, if_neg (by simp)]
        have hcoll : collapsedB (c :: r) = true := by
          rw [← hr]
          unfold pyStrip collapseWs
          exact collapsedB_stripTrail _ (collapsedB_dropWhile _ (collapse_ok s.toList).1)
        have hmk : (String.mk (c :: r)).toList = c :: r := rfl
        rw [clean_string, if_neg (string_mk_ne_empty c r)]
        simp only [hmk]
        unfold collapseWs
        rw [collapse_fix _ hcoll, ← hr, pyStrip_idem, hr]
        rw [if_neg (by simp)]

/-! ### Idempotence of amount and date normalization -/

theorem amtField_idem (x : PyNum) : amtField (amtField x) = amtField x := by
  unfold amtField
  rcases (normalize_currency_amount x).1 with _ | q
  · rfl
  · rfl

theorem amtField_detect (x : PyNum) :
    (normalize_currency_amount (amtField x)).2 = Option.none := by
  unfold amtField
  rcases (normalize_currency_amount x).1 with _ | q
  · rfl
  · rfl

theorem canonicalize_date_expand (s : String) :
    canonicalize_date (some s) =
      (if s = "" ∨ pyStrip s.toList = [] then Option.none
       else if isoStrptimeOk s then some s else Option.none) := rfl

theorem canonicalize_date_idem (x : Option String) :
    canonicalize_date (canonicalize_date x) = canonicalize_date x := by
  cases x with
  | none => rfl
  | some s =>
    rw [canonicalize_date_expand s]
    by_cases hb : s = "" ∨ pyStrip s.toList = []
    · rw [if_pos hb]; rfl
    · rw [if_neg hb]
      by_cases hiso : isoStrptimeOk s = true
      · rw [if_pos hiso, canonicalize_date_expand s, if_neg hb, if_pos hiso]
      · rw [if_neg hiso]; rfl

/-! ### Idempotence of the currency-code normalizer -/

theorem upChar_notLower (c : Char) : ¬('a' ≤ upChar c ∧ upChar c ≤ 'z') := by
  unfold upChar
  split
  · rename_i h
    have h1 : 97 ≤ c.toNat := (le_iff_toNat _ _).1 h.1
    have h2 : c.toNat ≤ 122 := (le_iff_toNat _ _).1 h.2
    have hv : (Char.ofNat (c.toNat - 32)).toNat = c.toNat - 32 :=
      toNat_ofNat_valid (c.toNat - 32) (by omega)
    rintro ⟨ha, hz⟩
    have ha' : (97 : Nat) ≤ (Char.ofNat (c.toNat - 32)).toNat := (le_iff_toNat _ _).1 ha
    rw [hv] at ha'
    omega
  · rename_i h
    exact h

theorem upChar_idem (c : Char) : upChar (upChar c) = upChar c := by
  rw [upChar, if_neg (upChar_notLower c)]

theorem map_self {f : Char → Char} {l : List Char} (h : ∀ c ∈ l, f c = c) :
    l.map f = l := by
  induction l with
  | nil => rfl
  | cons c rest ih =>
    rw [List.map_cons, h c (List.mem_cons_self c rest),
      ih (fun x hx => h x (List.mem_cons_of_mem _ hx))]

theorem ccc_expand (v : String) :
    canonicalize_currency_code (some v) =
      (if v = "" then "USD"
       else
         let cu := pyStrip (v.toList.map upChar)
         if cu.length = 3 ∧ cu.all isAlphaAsciiC then String.mk cu
         else
           match CURRENCY_MAPPINGS.find? (fun p => hasSub p.1.toList (cu.map downChar)) with
           | some p => p.2
           | Option.none => "USD") := rfl

theorem ccc_idem (x : Option String) :
    canonicalize_currency_code (some (canonicalize_currency_code x)) =
      canonicalize_currency_code x := by
  cases x with
  | none => decide
  | some v =>
    by_cases hv : v = ""
    · subst hv; decide
    · rw [ccc_expand v, if_neg hv]
      by_cases hpass : (pyStrip (v.toList.map upChar)).length = 3 ∧
          (pyStrip (v.toList.map upChar)).all isAlphaAsciiC = true
      · rw [if_pos hpass]
        set cu := pyStrip (v.toList.map upChar) with hcu
        have hfix : ∀ c ∈ cu, upChar c = c := by
          intro c hc
          have hmem : c ∈ v.toList.map upChar := pyStrip_mem (hcu ▸ hc)
          obtain ⟨d, _, hd⟩ := List.mem_map.1 hmem
          rw [← hd, upChar_idem]
        have hcu2 : pyStrip ((String.mk cu).toList.map upChar) = cu := by
          have h1 : (String.mk cu).toList = cu := rfl
          rw [h1, map_self hfix, hcu, pyStrip_idem]
        have hne : ¬(String.mk cu = "") := by
          rcases hl : cu with _ | ⟨a, t⟩
          · rw [hl] at hpass; cases hpass.1
          · exact string_mk_ne_empty a t
        rw [ccc_expand, if_neg hne]
        simp only [hcu2]
        rw [if_pos hpass]
      · rw [if_neg hpass]
        rcases hfind : CURRENCY_MAPPINGS.find?
            (fun p => hasSub p.1.toList
              ((pyStrip (v.toList.map upChar)).map downChar)) with _ | ⟨p⟩
        · rw [hfind]
          decide
        · have hp : p ∈ CURRENCY_MAPPINGS := List.mem_of_find?_eq_some hfind
          simp only [CURRENCY_MAPPINGS, List.mem_cons, List.not_mem_nil, or_false] at hp
          rcases hp with hp|hp|hp|hp|hp|hp|hp|hp|hp|hp|hp|hp|hp|hp|hp|hp|hp|hp|hp|hp|hp
            <;> (subst hp; rw [hfind]; decide)

/-! ### Idempotence of the time normalizer -/

theorem dChar_toNat (n : Nat) (h : n ≤ 9) : (dChar n).toNat = 48 + n := by
  interval_cases n <;> rfl

theorem dChar_isDigit (n : Nat) (h : n ≤ 9) : (dChar n).isDigit = true := by
  interval_cases n <;> decide

theorem oor_some {α : Type} (a : α) (y : Option α) : oor (some a) y = some a := rfl

theorem oor_none {α : Type} (y : Option α) : oor Option.none y = y := rfl

theorem oor_eq_some {α : Type} {x y : Option α} {a : α} :
    oor x y = some a ↔ x = some a ∨ (x = Option.none ∧ y = some a) := by
  cases x <;> simp [oor]

theorem hourAlt_cons {α : Type} (c1 c2 : Char) (rest : List Char)
    (k : Nat → List Char → Option α) :
    hourAlt (c1 :: c2 :: rest) k =
      oor (if c1 = '2' ∧ c2.isDigit ∧ c2 ≤ '3' then
             k (20 + (c2.toNat - 48)) rest else Option.none)
        (oor (if (c1 = '0' ∨ c1 = '1') ∧ c2.isDigit then
                k (10 * (c1.toNat - 48) + (c2.toNat - 48)) rest else Option.none)
          (if c1.isDigit then k (c1.toNat - 48) (c2 :: rest) else Option.none)) := rfl

theorem minuteAlt_cons {α : Type} (c1 c2 : Char) (rest : List Char)
    (k : Nat → List Char → Option α) :
    minuteAlt (c1 :: c2 :: rest) k =
      oor (if c1.isDigit ∧ c1 ≤ '5' ∧ c2.isDigit then
             k (10 * (c1.toNat - 48) + (c2.toNat - 48)) rest else Option.none)
        (if c1.isDigit then k (c1.toNat - 48) (c2 :: rest) else Option.none) := rfl

theorem expectColon_cons {α : Type} (c : Char) (rest : List Char)
    (k : List Char → Option α) :
    expectColon (c :: rest) k = if c = ':' then k rest else Option.none := rfl

theorem hourAlt_success {α : Type} {h : Nat} (hh : h ≤ 23) (rest : List Char)
    (k : Nat → List Char → Option α) {a : α} (hk : k h rest = some a) :
    hourAlt (pad2 h ++ rest) k = some a := by
  have hdiv : h / 10 ≤ 9 := by omega
  have hmod : h % 10 ≤ 9 := by omega
  have happ : pad2 h ++ rest = dChar (h / 10) :: dChar (h % 10) :: rest := rfl
  rw [happ, hourAlt_cons]
  by_cases h20 : 20 ≤ h
  · have hd1 : dChar (h / 10) = '2' := by
      rw [char_eq_iff_toNat, dChar_toNat _ hdiv]
      have hq : h / 10 = 2 := by omega
      rw [hq]
      rfl
    have hd2le : dChar (h % 10) ≤ '3' := by
      rw [le_iff_toNat, dChar_toNat _ hmod]
      show 48 + h % 10 ≤ 51
      omega
    rw [if_pos ⟨hd1, dChar_isDigit _ hmod, hd2le⟩]
    have hval : 20 + ((dChar (h % 10)).toNat - 48) = h := by
      rw [dChar_toNat _ hmod]; omega
    rw [hval, hk, oor_some]
  · have hd1 : ¬(dChar (h / 10) = '2' ∧ (dChar (h % 10)).isDigit = true ∧
        dChar (h % 10) ≤ '3') := by
      rintro ⟨h1, _, _⟩
      rw [char_eq_iff_toNat, dChar_toNat _ hdiv] at h1
      have h2 : ('2').toNat = 50 := rfl
      omega
    rw [if_neg hd1, oor_none]
    have hd2 : (dChar (h / 10) = '0' ∨ dChar (h / 10) = '1') ∧
        (dChar (h % 10)).isDigit = true := by
      refine ⟨?_, dChar_isDigit _ hmod⟩
      have hq : h / 10 = 0 ∨ h / 10 = 1 := by omega
      rcases hq with hq | hq <;> rw [hq]
      · left; rfl
      · right; rfl
    rw [if_pos hd2]
    have hval : 10 * ((dChar (h / 10)).toNat - 48) + ((dChar (h % 10)).toNat - 48) = h := by
      rw [dChar_toNat _ hdiv, dChar_toNat _ hmod]; omega
    rw [hval, hk, oor_some]

theorem minuteAlt_success {α : Type} {m : Nat} (hm : m ≤ 59) (rest : List Char)
    (k : Nat → List Char → Option α) {a : α} (hk : k m rest = some a) :
    minuteAlt (pad2 m ++ rest) k = some a := by
  have hdiv : m / 10 ≤ 9 := by omega
  have hmod : m % 10 ≤ 9 := by omega
  have happ : pad2 m ++ rest = dChar (m / 10) :: dChar (m % 10) :: rest := rfl
  rw [happ, minuteAlt_cons]
  have hle : dChar (m / 10) ≤ '5' := by
    rw [le_iff_toNat, dChar_toNat _ hdiv]
    show 48 + m / 10 ≤ 53
    omega
  rw [if_pos ⟨dChar_isDigit _ hdiv, hle, dChar_isDigit _ hmod⟩]
  have hval : 10 * ((dChar (m / 10)).toNat - 48) + ((dChar (m % 10)).toNat - 48) = m := by
    rw [dChar_toNat _ hdiv, dChar_toNat _ hmod]; omega
  rw [hval, hk, oor_some]

theorem secondGroup_pad2 {s : Nat} (hs : s ≤ 59) : secondGroup (pad2 s) = some (s, []) := by
  have hdiv : s / 10 ≤ 9 := by omega
  have hmod : s % 10 ≤ 9 := by omega
  have happ : pad2 s = dChar (s / 10) :: dChar (s % 10) :: ([] : List Char) := rfl
  rw [happ]
  rw [show secondGroup (dChar (s / 10) :: dChar (s % 10) :: ([] : List Char)) =
    (if dChar (s / 10) = '6' ∧ (dChar (s % 10)).isDigit ∧ dChar (s % 10) ≤ '1' then
       some (60 + ((dChar (s % 10)).toNat - 48), ([] : List Char))
     else if (dChar (s / 10)).isDigit ∧ dChar (s / 10) ≤ '5' ∧ (dChar (s % 10)).isDigit then
       some (10 * ((dChar (s / 10)).toNat - 48) + ((dChar (s % 10)).toNat - 48), ([] : List Char))
     else if (dChar (s / 10)).isDigit then
       some ((dChar (s / 10)).toNat - 48, dChar (s % 10) :: ([] : List Char))
     else Option.none) from rfl]
  have h6 : ¬(dChar (s / 10) = '6' ∧ (dChar (s % 10)).isDigit = true ∧
      dChar (s % 10) ≤ '1') := by
    rintro ⟨h1, _, _⟩
    rw [char_eq_iff_toNat, dChar_toNat _ hdiv] at h1
    have h2 : ('6').toNat = 54 := rfl
    omega
  rw [if_neg h6]
  have hle : dChar (s / 10) ≤ '5' := by
    rw [le_iff_toNat, dChar_toNat _ hdiv]
    show 48 + s / 10 ≤ 53
    omega
  rw [if_pos ⟨dChar_isDigit _ hdiv, hle, dChar_isDigit _ hmod⟩]
  have hval : 10 * ((dChar (s / 10)).toNat - 48) + ((dChar (s % 10)).toNat - 48) = s := by
    rw [dChar_toNat _ hdiv, dChar_toNat _ hmod]; omega
  rw [hval]

theorem regexHMS_roundtrip (h m s : Nat) (hh : h ≤ 23) (hm : m ≤ 59) (hs : s ≤ 59) :
    regexHMS (fmtHMS h m s) = some (h, m, s, []) := by
  unfold regexHMS fmtHMS
  apply hourAlt_success hh
  rw [expectColon_cons, if_pos rfl]
  apply minuteAlt_success hm
  rw [expectColon_cons, if_pos rfl, secondGroup_pad2 hs]
  rfl

theorem strptimeHMS_roundtrip (h m s : Nat) (hh : h ≤ 23) (hm : m ≤ 59) (hs : s ≤ 59) :
    strptimeHMS (fmtHMS h m s) = some (h, m, s) := by
  unfold strptimeHMS
  rw [regexHMS_roundtrip h m s hh hm hs]
  show (if ([] : List Char) = [] ∧ s ≤ 59 then some (h, m, s) else Option.none) = some (h, m, s)
  rw [if_pos ⟨rfl, hs⟩]

theorem hourAlt_bound {α : Type} {l : List Char} {k : Nat → List Char → Option α} {a : α}
    (h : hourAlt l k = some a) : ∃ hv r, hv ≤ 23 ∧ k hv r = some a := by
  cases l with
  | nil => cases h
  | cons c1 t =>
    cases t with
    | nil =>
      rw [show hourAlt [c1] k =
        (if c1.isDigit then k (c1.toNat - 48) [] else Option.none) from rfl] at h
      split at h
      · rename_i hd
        have hb := (isDigit_iff c1).1 hd
        exact ⟨c1.toNat - 48, [], by omega, h⟩
      · cases h
    | cons c2 rest =>
      rw [hourAlt_cons] at h
      rcases oor_eq_some.1 h with h1 | ⟨_, h2⟩
      · split at h1
        · rename_i hc
          have h3 : c2.toNat ≤ 51 := by
            have := (le_iff_toNat c2 '3').1 hc.2.2
            exact this
          exact ⟨20 + (c2.toNat - 48), rest, by omega, h1⟩
        · cases h1
      · rcases oor_eq_some.1 h2 with h3 | ⟨_, h4⟩
        · split at h3
          · rename_i hc
            have h5 : c1.toNat ≤ 49 := by
              rcases hc.1 with hq | hq <;> rw [hq] <;> decide
            have h6 := (isDigit_iff c2).1 hc.2
            exact ⟨_, rest, by omega, h3⟩
          · cases h3
        · split at h4
          · rename_i hd
            have hb := (isDigit_iff c1).1 hd
            exact ⟨c1.toNat - 48, c2 :: rest, by omega, h4⟩
          · cases h4

theorem minuteAlt_bound {α : Type} {l : List Char} {k : Nat → List Char → Option α} {a : α}
    (h : minuteAlt l k = some a) : ∃ mv r, mv ≤ 59 ∧ k mv r = some a := by
  cases l with
  | nil => cases h
  | cons c1 t =>
    cases t with
    | nil =>
      rw [show minuteAlt [c1] k =
        (if c1.isDigit then k (c1.toNat - 48) [] else Option.none) from rfl] at h
      split at h
      · rename_i hd
        have hb := (isDigit_iff c1).1 hd
        exact ⟨c1.toNat - 48, [], by omega, h⟩
      · cases h
    | cons c2 rest =>
      rw [minuteAlt_cons] at h
      rcases oor_eq_some.1 h with h1 | ⟨_, h2⟩
      · split at h1
        · rename_i hc
          have h3 : c1.toNat ≤ 53 := (le_iff_toNat c1 '5').1 hc.2.1
          have h6 := (isDigit_iff c2).1 hc.2.2
          exact ⟨_, rest, by omega, h1⟩
        · cases h1
      · split at h2
        · rename_i hd
          have hb := (isDigit_iff c1).1 hd
          exact ⟨c1.toNat - 48, c2 :: rest, by omega, h2⟩
        · cases h2

theorem expectColon_some {α : Type} {l : List Char} {k : List Char → Option α} {a : α}
    (h : expectColon l k = some a) : ∃ r, k r = some a := by
  cases l with
  | nil => cases h
  | cons c t =>
    rw [expectColon_cons] at h
    split at h
    · exact ⟨t, h⟩
    · cases h

theorem regexHMS_bound {l : List Char} {h m s : Nat} {r : List Char}
    (hr : regexHMS l = some (h, m, s, r)) : h ≤ 23 ∧ m ≤ 59 := by
  unfold regexHMS at hr
  obtain ⟨h1, r1, hb1, hk1⟩ := hourAlt_bound hr
  obtain ⟨r2, hk2⟩ := expectColon_some hk1
  obtain ⟨m1, r3, hb2, hk3⟩ := minuteAlt_bound hk2
  obtain ⟨r4, hk4⟩ := expectColon_some hk3
  rcases hsg : secondGroup r4 with _ | ⟨p⟩ <;> rw [hsg] at hk4
  · cases hk4
  · simp only [Option.map] at hk4
    cases hk4
    exact ⟨hb1, hb2⟩

theorem strptimeHMS_bound {l : List Char} {h m s : Nat}
    (hp : strptimeHMS l = some (h, m, s)) : h ≤ 23 ∧ m ≤ 59 ∧ s ≤ 59 := by
  unfold strptimeHMS at hp
  rcases hr : regexHMS l with _ | ⟨⟨h1, m1, s1, r1⟩⟩ <;> rw [hr] at hp
  · cases hp
  · have hp2 : (if r1 = [] ∧ s1 ≤ 59 then some (h1, m1, s1) else Option.none) =
        some (h, m, s) := hp
    split at hp2
    · rename_i hcond
      cases hp2
      obtain ⟨b1, b2⟩ := regexHMS_bound hr
      exact ⟨b1, b2, hcond.2⟩
    · cases hp2

theorem strptimeHM_bound {l : List Char} {h m : Nat}
    (hp : strptimeHM l = some (h, m)) : h ≤ 23 ∧ m ≤ 59 := by
  unfold strptimeHM at hp
  rcases hr : regexHM l with _ | ⟨⟨h1, m1, r1⟩⟩ <;> rw [hr] at hp
  · cases hp
  · have hp2 : (if r1 = [] then some (h1, m1) else Option.none) = some (h, m) := hp
    split at hp2
    · cases hp2
      unfold regexHM at hr
      obtain ⟨h2, r2, hb1, hk1⟩ := hourAlt_bound hr
      obtain ⟨r3, hk2⟩ := expectColon_some hk1
      rcases hmm : minuteAlt r3 (fun m r3 => some (m, r3)) with _ | ⟨p⟩ <;> rw [hmm] at hk2
      · cases hk2
      · obtain ⟨m2, r4, hb2, hk3⟩ := minuteAlt_bound hmm
        cases hk3
        simp only [Option.map] at hk2
        cases hk2
        exact ⟨hb1, hb2⟩
    · cases hp2

theorem replaceSubF_noop (p0 : Char) (ps rep : List Char) (fuel : Nat) (l : List Char)
    (h : ∀ c ∈ l, ¬(c = p0)) : replaceSubF (p0 :: ps) rep fuel l = l := by
  induction fuel generalizing l with
  | zero => cases l with
    | nil => rfl
    | cons c t => rfl
  | succ f ih =>
    cases l with
    | nil => rfl
    | cons c t =>
      have hneg : ¬(startsWithL (p0 :: ps) (c :: t) = true) := by
        rw [show startsWithL (p0 :: ps) (c :: t) =
          (decide (p0 = c) && startsWithL ps t) from rfl]
        intro hcontra
        simp only [Bool.and_eq_true, decide_eq_true_eq] at hcontra
        exact h c (List.mem_cons_self c t) hcontra.1.symm
      rw [show replaceSubF (p0 :: ps) rep (f + 1) (c :: t) =
        (if startsWithL (p0 :: ps) (c :: t) then
          rep ++ replaceSubF (p0 :: ps) rep f (List.drop ((p0 :: ps).length - 1) t)
        else c :: replaceSubF (p0 :: ps) rep f t) from rfl]
      rw [if_neg hneg, ih t (fun x hx => h x (List.mem_cons_of_mem _ hx))]

theorem replaceSub_noop (p0 : Char) (ps rep : List Char) (l : List Char)
    (h : ∀ c ∈ l, ¬(c = p0)) : replaceSub (p0 :: ps) rep l = l := by
  rw [replaceSub, if_neg (by simp)]
  exact replaceSubF_noop p0 ps rep l.length l h

theorem dChar_toNat_mem (n : Nat) : 48 ≤ (dChar n).toNat ∧ (dChar n).toNat ≤ 57 := by
  match n with
  | 0 => exact ⟨by decide, by decide⟩
  | 1 => exact ⟨by decide, by decide⟩
  | 2 => exact ⟨by decide, by decide⟩
  | 3 => exact ⟨by decide, by decide⟩
  | 4 => exact ⟨by decide, by decide⟩
  | 5 => exact ⟨by decide, by decide⟩
  | 6 => exact ⟨by decide, by decide⟩
  | 7 => exact ⟨by decide, by decide⟩
  | 8 => exact ⟨by decide, by decide⟩
  | 9 => exact ⟨by decide, by decide⟩
  | n + 10 =>
    show 48 ≤ ('0').toNat ∧ ('0').toNat ≤ 57
    exact ⟨by decide, by decide⟩

theorem fmt_char_range (h m s : Nat) :
    ∀ c ∈ fmtHMS h m s, 48 ≤ c.toNat ∧ c.toNat ≤ 58 := by
  intro c hc
  have hcolon : (':').toNat = 58 := rfl
  simp only [fmtHMS, pad2, List.cons_append, List.nil_append, List.mem_cons,
    List.not_mem_nil, or_false] at hc
  rcases hc with hc | hc | hc | hc | hc | hc | hc | hc <;> subst hc <;>
    first
      | (exact ⟨(dChar_toNat_mem _).1, Nat.le_succ_of_le (dChar_toNat_mem _).2⟩)
      | (exact ⟨by decide, by decide⟩)

theorem fmt_nonspace (h m s : Nat) : ∀ c ∈ fmtHMS h m s, pyIsSpace c = false := by
  intro c hc
  have hr := fmt_char_range h m s c hc
  rw [← Bool.not_eq_true, pyIsSpace_iff]
  omega

theorem fmt_no_marker (h m s : Nat) (p0 : Char) (hp : 96 ≤ p0.toNat ∨ p0.toNat = 65 ∨ p0.toNat = 80) :
    ∀ c ∈ fmtHMS h m s, ¬(c = p0) := by
  intro c hc hcp
  have hr := fmt_char_range h m s c hc
  rw [char_eq_iff_toNat] at hcp
  omega

theorem fmt_cons (h m s : Nat) :
    fmtHMS h m s = dChar (h / 10) :: dChar (h % 10) :: ':' :: pad2 m ++ ':' :: pad2 s := rfl

theorem canonicalize_time_expand (s : String) :
    canonicalize_time (some s) =
      (if s = "" ∨ pyStrip s.toList = [] then Option.none
       else
         match strptimeHMS (pyStrip (replaceSub ['P', 'M'] [] (replaceSub ['A', 'M'] []
             (replaceSub ['p', 'm'] [] (replaceSub ['a', 'm'] [] s.toList))))) with
         | some (h, m, sec) => some (String.mk (fmtHMS h m sec))
         | Option.none =>
           match strptimeHM (pyStrip (replaceSub ['P', 'M'] [] (replaceSub ['A', 'M'] []
               (replaceSub ['p', 'm'] [] (replaceSub ['a', 'm'] [] s.toList))))) with
           | some (h, m) => some (String.mk (fmtHMS h m 0))
           | Option.none => Option.none) := rfl

theorem canonicalize_time_fmt (h m s : Nat) (hh : h ≤ 23) (hm : m ≤ 59) (hs : s ≤ 59) :
    canonicalize_time (some (String.mk (fmtHMS h m s))) = some (String.mk (fmtHMS h m s)) := by
  have htl : (String.mk (fmtHMS h m s)).toList = fmtHMS h m s := rfl
  have hnospace := fmt_nonspace h m s
  have hstrip : pyStrip (fmtHMS h m s) = fmtHMS h m s := pyStrip_nonspace _ hnospace
  have hblank : ¬(String.mk (fmtHMS h m s) = "" ∨
      pyStrip (String.mk (fmtHMS h m s)).toList = []) := by
    rintro (h1 | h1)
    · rw [fmt_cons] at h1
      exact string_mk_ne_empty _ _ h1
    · rw [htl, hstrip, fmt_cons] at h1
      cases h1
  rw [canonicalize_time_expand, if_neg hblank]
  have hrep : pyStrip (replaceSub ['P', 'M'] [] (replaceSub ['A', 'M'] []
      (replaceSub ['p', 'm'] [] (replaceSub ['a', 'm'] []
        (String.mk (fmtHMS h m s)).toList)))) = fmtHMS h m s := by
    rw [htl]
    rw [replaceSub_noop 'a' ['m'] [] _ (fmt_no_marker h m s 'a' (by left; decide))]
    rw [replaceSub_noop 'p' ['m'] [] _ (fmt_no_marker h m s 'p' (by left; decide))]
    rw [replaceSub_noop 'A' ['M'] [] _ (fmt_no_marker h m s 'A' (by right; left; decide))]
    rw [replaceSub_noop 'P' ['M'] [] _ (fmt_no_marker h m s 'P' (by right; right; decide))]
    exact hstrip
  rw [hrep, strptimeHMS_roundtrip h m s hh hm hs]

theorem canonicalize_time_idem (t : Option String) :
    canonicalize_time (canonicalize_time t) = canonicalize_time t := by
  cases t with
  | none => rfl
  | some s =>
    rw [canonicalize_time_expand s]
    by_cases hb : s = "" ∨ pyStrip s.toList = []
    · rw [if_pos hb]; rfl
    · rw [if_neg hb]
      rcases hp : strptimeHMS (pyStrip (replaceSub ['P', 'M'] [] (replaceSub ['A', 'M'] []
          (replaceSub ['p', 'm'] [] (replaceSub ['a', 'm'] [] s.toList))))) with
        _ | ⟨⟨h, m, sec⟩⟩
      · rcases hq : strptimeHM (pyStrip (replaceSub ['P', 'M'] [] (replaceSub ['A', 'M'] []
            (replaceSub ['p', 'm'] [] (replaceSub ['a', 'm'] [] s.toList))))) with
          _ | ⟨⟨h, m⟩⟩
        · rfl
        · obtain ⟨b1, b2⟩ := strptimeHM_bound hq
          exact canonicalize_time_fmt h m 0 b1 b2 (by omega)
      · obtain ⟨b1, b2, b3⟩ := strptimeHMS_bound hp
        exact canonicalize_time_fmt h m sec b1 b2 b3

/-! ### Idempotence of the section transformations -/

theorem canonMeta_idem (m : Meta) : canonMeta (canonMeta m) = canonMeta m := by
  unfold canonMeta
  simp [canonicalize_date_idem, canonicalize_time_idem, clean_string_idem]

theorem canonTax_idem (t : Tax) : canonTax (canonTax t) = canonTax t := by
  unfold canonTax
  simp [amtField_idem, clean_string_idem]

theorem canonDiscount_idem (d : Discount) : canonDiscount (canonDiscount d) = canonDiscount d := by
  unfold canonDiscount
  simp [amtField_idem]

theorem canonItem_idem (it : Item) : canonItem (canonItem it) = canonItem it := by
  unfold canonItem
  simp only [Item.mk.injEq]
  refine ⟨clean_string_idem _, clean_string_idem _, amtField_idem _, amtField_idem _,
    amtField_idem _, ?_⟩
  cases it.discount with
  | none => rfl
  | some d =>
    simp only [Option.map_some']
    exact congrArg some (canonDiscount_idem d)

theorem canonPricing_idem (p : Pricing) : canonPricing (canonPricing p) = canonPricing p := by
  unfold canonPricing
  simp only [Pricing.mk.injEq]
  refine ⟨amtField_idem _, amtField_idem _, amtField_idem _, ?_, ?_, ?_⟩
  · rw [amtField_idem, amtField_detect]
    simp only [Option.getD_none]
    exact congrArg some (ccc_idem p.currency)
  · cases p.tax with
    | none => rfl
    | some t =>
      simp only [Option.map_some']
      exact congrArg some (canonTax_idem t)
  · cases p.shipping with
    | none => rfl
    | some sh =>
      simp only [Option.map_some', Option.some.injEq, Shipping.mk.injEq]
      exact amtField_idem _

theorem canonPayment_idem (pay : PaymentInfo) :
    canonPayment (canonPayment pay) = canonPayment pay := by
  unfold canonPayment
  simp only [PaymentInfo.mk.injEq]
  exact ⟨clean_string_idem _, clean_string_idem _, clean_string_idem _⟩

theorem mapItems_idem (l : List Item) :
    List.map canonItem (List.map canonItem l) = List.map canonItem l := by
  induction l with
  | nil => rfl
  | cons it rest ih =>
    simp only [List.map_cons]
    rw [canonItem_idem, ih]

theorem cvn_normalized (u1 n1 u2 n2 : String) (name : Option String) :
    (canonicalize_vendor_name u2 n2 name).normalized_name =
      (canonicalize_vendor_name u1 n1 name).normalized_name := by
  unfold canonicalize_vendor_name
  split <;> rfl

theorem cvn_raw_input (u1 n1 u2 n2 : String) (name : Option String) :
    (canonicalize_vendor_name u2 n2 name).raw_input =
      (canonicalize_vendor_name u1 n1 name).raw_input := by
  unfold canonicalize_vendor_name
  split <;> rfl

/-! ### Bounds for rounding and the per-field scorers -/

theorem rhe_cases (x : ℚ) :
    roundHalfEven x = x.num.ediv (x.den : ℤ) ∨
      (roundHalfEven x = x.num.ediv (x.den : ℤ) + 1 ∧
        (x.den : ℤ) ≤ 2 * (x.num - x.num.ediv (x.den : ℤ) * (x.den : ℤ))) := by
  unfold roundHalfEven
  split_ifs with h1 h2 h3
  · exact Or.inl rfl
  · exact Or.inr ⟨rfl, le_of_lt h2⟩
  · exact Or.inl rfl
  · exact Or.inr ⟨rfl, le_of_not_lt h1⟩

theorem ediv_floor_le (x : ℚ) : ((x.num.ediv (x.den : ℤ) : ℤ) : ℚ) ≤ x := by
  have hd0 : (0 : ℤ) < (x.den : ℤ) := by exact_mod_cast x.den_pos
  have hdiv_eq : x.num / (x.den : ℤ) = x.num.ediv (x.den : ℤ) := rfl
  have hkey : (x.den : ℤ) * (x.num / (x.den : ℤ)) + x.num % (x.den : ℤ) = x.num :=
    Int.ediv_add_emod _ _
  rw [hdiv_eq] at hkey
  have hr0 : 0 ≤ x.num % (x.den : ℤ) := Int.emod_nonneg _ (by omega)
  have hdQ : (0 : ℚ) < (x.den : ℚ) := by exact_mod_cast x.den_pos
  have hx : ((x.num : ℚ) / (x.den : ℚ)) = x := Rat.num_div_den x
  have hint : x.num.ediv (x.den : ℤ) * (x.den : ℤ) ≤ x.num := by nlinarith
  have h5 : ((x.num.ediv (x.den : ℤ) : ℤ) : ℚ) ≤ (x.num : ℚ) / (x.den : ℚ) := by
    rw [le_div_iff₀ hdQ]
    exact_mod_cast hint
  exact le_of_le_of_eq h5 hx

theorem roundHalfEven_nonneg {x : ℚ} (h : 0 ≤ x) : 0 ≤ roundHalfEven x := by
  have h0 : 0 ≤ x.num := Rat.num_nonneg.2 h
  have hf : 0 ≤ x.num.ediv (x.den : ℤ) := Int.ediv_nonneg h0 (by positivity)
  rcases rhe_cases x with hc | ⟨hc, _⟩ <;> rw [hc] <;> omega

theorem roundHalfEven_le {x : ℚ} {n : ℤ} (h : x ≤ (n : ℚ)) : roundHalfEven x ≤ n := by
  have hle := ediv_floor_le x
  rcases rhe_cases x with hc | ⟨hc, hden⟩
  · rw [hc]
    have h2 : ((x.num.ediv (x.den : ℤ) : ℤ) : ℚ) ≤ (n : ℚ) := le_trans hle h
    exact_mod_cast h2
  · rw [hc]
    have hd0 : (0 : ℤ) < (x.den : ℤ) := by exact_mod_cast x.den_pos
    have hR : x.num.ediv (x.den : ℤ) * (x.den : ℤ) < x.num := by linarith
    have hfltx : ((x.num.ediv (x.den : ℤ) : ℤ) : ℚ) < x := by
      have hdQ : (0 : ℚ) < (x.den : ℚ) := by exact_mod_cast x.den_pos
      have hx : ((x.num : ℚ) / (x.den : ℚ)) = x := Rat.num_div_den x
      have h6 : ((x.num.ediv (x.den : ℤ) : ℤ) : ℚ) < (x.num : ℚ) / (x.den : ℚ) := by
        rw [lt_div_iff₀ hdQ]
        exact_mod_cast hR
      exact lt_of_lt_of_eq h6 hx
    have h3 : ((x.num.ediv (x.den : ℤ) : ℤ) : ℚ) < (n : ℚ) := lt_of_lt_of_le hfltx h
    have h4 : x.num.ediv (x.den : ℤ) < n := by exact_mod_cast h3
    omega

theorem round2_nonneg {q : ℚ} (h : 0 ≤ q) : 0 ≤ round2 q := by
  unfold round2
  have h1 : (0 : ℤ) ≤ roundHalfEven (q * 100) := roundHalfEven_nonneg (by positivity)
  have h2 : (0 : ℚ) ≤ ((roundHalfEven (q * 100) : ℤ) : ℚ) := by exact_mod_cast h1
  positivity

theorem round2_le {q : ℚ} {B : ℤ} (h : q ≤ (B : ℚ)) : round2 q ≤ (B : ℚ) := by
  unfold round2
  have h1 : roundHalfEven (q * 100) ≤ 100 * B := by
    apply roundHalfEven_le
    push_cast
    linarith
  rw [div_le_iff₀ (by norm_num : (0 : ℚ) < 100)]
  calc ((roundHalfEven (q * 100) : ℤ) : ℚ) ≤ ((100 * B : ℤ) : ℚ) := by exact_mod_cast h1
    _ = (B : ℚ) * 100 := by push_cast; ring

theorem score_company_name_bounds (x : Option String) :
    0 ≤ score_company_name x ∧ score_company_name x ≤ 150 := by
  cases x with
  | none => norm_num [score_company_name]
  | some s =>
    rw [score_company_name]
    dsimp only
    split_ifs
    all_goals
      have hmin0 : (0 : ℚ) ≤ min ((s.length : ℚ) / 50) 1 := le_min (by positivity) (by norm_num)
      have hmin1 : min ((s.length : ℚ) / 50) 1 ≤ 1 := min_le_right _ _
      constructor <;> linarith

theorem score_invoice_number_bounds (x : Option String) :
    0 ≤ score_invoice_number x ∧ score_invoice_number x ≤ 100 := by
  cases x with
  | none => norm_num [score_invoice_number]
  | some s =>
    rw [score_invoice_number]
    dsimp only
    split_ifs <;> norm_num

theorem score_date_bounds (x : Option String) :
    0 ≤ score_date x ∧ score_date x ≤ 100 := by
  cases x with
  | none => norm_num [score_date]
  | some s =>
    rw [score_date]
    split_ifs <;> norm_num

theorem score_time_bounds (x : Option String) :
    0 ≤ score_time x ∧ score_time x ≤ 100 := by
  cases x with
  | none => norm_num [score_time]
  | some s =>
    rw [score_time]
    split_ifs <;> norm_num

theorem score_vendor_name_bounds (x : Option String) :
    0 ≤ score_vendor_name x ∧ score_vendor_name x ≤ 120 := by
  cases x with
  | none => norm_num [score_vendor_name]
  | some s =>
    rw [score_vendor_name]
    dsimp only
    have hmin0 : (0 : ℚ) ≤ min ((s.length : ℚ) / 40) 1 := le_min (by positivity) (by norm_num)
    have hmin1 : min ((s.length : ℚ) / 40) 1 ≤ 1 := min_le_right _ _
    split_ifs <;> constructor <;> linarith

theorem itemScore_nonneg (it : Item) : 0 ≤ itemScore it := by
  rw [itemScore]
  rcases it.discount with _ | d <;> dsimp only <;> split_ifs <;> norm_num

theorem score_items_bounds (l : List Item) :
    0 ≤ score_items l ∧ score_items l ≤ 100 := by
  rw [score_items]
  split_ifs with h
  · norm_num
  · refine ⟨le_min ?_ (by norm_num), min_le_right _ _⟩
    apply div_nonneg
    · apply List.sum_nonneg
      intro a ha
      obtain ⟨it, _, hit⟩ := List.mem_map.1 ha
      rw [← hit]
      exact itemScore_nonneg it
    · positivity

theorem score_pricing_bounds (x : Option Pricing) :
    0 ≤ score_pricing x ∧ score_pricing x ≤ 100 := by
  cases x with
  | none => norm_num [score_pricing]
  | some pr =>
    rw [score_pricing]
    rcases pr.tax with _ | t <;> dsimp only <;> split_ifs <;> norm_num

/-! ### Claim theorems -/

/-- C1: the claim says a currency symbol detected in the total-amount
text overrides the textual currency field.  In the code the total amount
is normalized in place first, so the detection at line 272 runs on the
already-normalized number and never fires: normalize_currency_amount
does detect USD in the raw text, yet the canonicalized currency comes
from the textual field rupee and is INR. -/
theorem C1_currency_override_dead :
    (normalize_currency_amount (PyNum.str "$100.00")).2 = some "USD" ∧
    (canonicalize_invoice "AAAAAAAA" "2025-01-01T00:00:00" docC1).pricing_summary.map
      Pricing.currency = some (some "INR") ∧
    ¬((canonicalize_invoice "AAAAAAAA" "2025-01-01T00:00:00" docC1).pricing_summary.map
      Pricing.currency = some (some "USD")) := by
  decide

/-- C2 counterexample: re-canonicalizing a canonical document regenerates
the vendor first_seen timestamp (datetime.now() at the second call), so
first_seen is not reproduced identically, contrary to the claim that only
canonical_id changes. -/
theorem C2_first_seen_changes :
    ¬((((canonicalize_invoice "BBBBBBBB" "2025-01-02T00:00:00"
          (canonicalize_invoice "AAAAAAAA" "2025-01-01T00:00:00" docC2v)).vendor_info.bind
        VendorInfo.vendor_name_canonical).map VendorCanonical.first_seen) =
      (((canonicalize_invoice "AAAAAAAA" "2025-01-01T00:00:00" docC2v).vendor_info.bind
        VendorInfo.vendor_name_canonical).map VendorCanonical.first_seen)) := by
  decide

/-- C4 counterexample: score_company_name of a 50-character name with a
business keyword is 100 + 50 = 150, outside [0,100]. -/
theorem C4_company_score_exceeds_100 :
    score_company_name (some c50Name) = 150 ∧
    ¬(score_company_name (some c50Name) ≤ 100) := by
  decide

/-- C5 counterexample: on the empty document every field scores 0 except
time with 100.  The code divides by the actual total weight 78 (pricing
falls back to the default weight 10, the subtotal/tax/total_amount table
entries are never looked up), giving 3.85; the claim's aggregate with
pricing weight 26 (total weight 94) would give 3.19. -/
theorem C5_pricing_weight_not_26 :
    (calculate_confidence emptyInv).overall_confidence = 77 / 20 ∧
    round2 (min ((100 * 3 : ℚ) / 94) 100) = 319 / 100 ∧
    ¬((77 / 20 : ℚ) = 319 / 100) := by
  decide

/-- C6: the claim (and the docstring of canonicalize_time) says
normalizeTime of 2:30 PM is 14:30:00.  The code strips the PM marker and
parses 2:30 as a 24-hour time, producing 02:30:00; absent input does map
to none. -/
theorem C6_pm_marker_ignored :
    canonicalize_time (some "2:30 PM") = some "02:30:00" ∧
    ¬(canonicalize_time (some "2:30 PM") = some "14:30:00") ∧
    canonicalize_time Option.none = Option.none := by
  decide

/-- C2 (amended): re-canonicalizing a canonical document reproduces every
field identically except the vendor canonical_id and first_seen, which
are regenerated from the fresh uuid and clock of the second call; in
particular the metadata, items, pricing, payment sections and the vendor
name, address, tax id, and the normalized_name and raw_input of the
vendor identity record are all unchanged. -/
theorem C2_recanonicalize_changes_only_vendor_id_and_first_seen
    (u1 n1 u2 n2 : String) (doc : Invoice) :
    (canonicalize_invoice u2 n2 (canonicalize_invoice u1 n1 doc)).invoice_metadata =
      (canonicalize_invoice u1 n1 doc).invoice_metadata ∧
    (canonicalize_invoice u2 n2 (canonicalize_invoice u1 n1 doc)).items =
      (canonicalize_invoice u1 n1 doc).items ∧
    (canonicalize_invoice u2 n2 (canonicalize_invoice u1 n1 doc)).pricing_summary =
      (canonicalize_invoice u1 n1 doc).pricing_summary ∧
    (canonicalize_invoice u2 n2 (canonicalize_invoice u1 n1 doc)).payment_info =
      (canonicalize_invoice u1 n1 doc).payment_info ∧
    (canonicalize_invoice u2 n2 (canonicalize_invoice u1 n1 doc)).vendor_info.map
        VendorInfo.vendor_name =
      (canonicalize_invoice u1 n1 doc).vendor_info.map VendorInfo.vendor_name ∧
    (canonicalize_invoice u2 n2 (canonicalize_invoice u1 n1 doc)).vendor_info.map
        VendorInfo.vendor_address =
      (canonicalize_invoice u1 n1 doc).vendor_info.map VendorInfo.vendor_address ∧
    (canonicalize_invoice u2 n2 (canonicalize_invoice u1 n1 doc)).vendor_info.map
        VendorInfo.vendor_tax_id =
      (canonicalize_invoice u1 n1 doc).vendor_info.map VendorInfo.vendor_tax_id ∧
    ((canonicalize_invoice u2 n2 (canonicalize_invoice u1 n1 doc)).vendor_info.bind
        VendorInfo.vendor_name_canonical).map VendorCanonical.normalized_name =
      ((canonicalize_invoice u1 n1 doc).vendor_info.bind
        VendorInfo.vendor_name_canonical).map VendorCanonical.normalized_name ∧
    ((canonicalize_invoice u2 n2 (canonicalize_invoice u1 n1 doc)).vendor_info.bind
        VendorInfo.vendor_name_canonical).map VendorCanonical.raw_input =
      ((canonicalize_invoice u1 n1 doc).vendor_info.bind
        VendorInfo.vendor_name_canonical).map VendorCanonical.raw_input := by
  refine ⟨?_, ?_, ?_, ?_, ?_, ?_, ?_, ?_, ?_⟩
  · show (doc.invoice_metadata.map canonMeta).map canonMeta = doc.invoice_metadata.map canonMeta
    cases doc.invoice_metadata with
    | none => rfl
    | some m => exact congrArg some (canonMeta_idem m)
  · show (doc.items.map (fun l => l.map canonItem)).map (fun l => l.map canonItem) =
      doc.items.map (fun l => l.map canonItem)
    cases doc.items with
    | none => rfl
    | some l => exact congrArg some (mapItems_idem l)
  · show (doc.pricing_summary.map canonPricing).map canonPricing =
      doc.pricing_summary.map canonPricing
    cases doc.pricing_summary with
    | none => rfl
    | some p => exact congrArg some (canonPricing_idem p)
  · show (doc.payment_info.map canonPayment).map canonPayment =
      doc.payment_info.map canonPayment
    cases doc.payment_info with
    | none => rfl
    | some pay => exact congrArg some (canonPayment_idem pay)
  · show ((doc.vendor_info.map (canonVendorInfo u1 n1)).map (canonVendorInfo u2 n2)).map
        VendorInfo.vendor_name =
      (doc.vendor_info.map (canonVendorInfo u1 n1)).map VendorInfo.vendor_name
    cases doc.vendor_info with
    | none => rfl
    | some v => rfl
  · show ((doc.vendor_info.map (canonVendorInfo u1 n1)).map (canonVendorInfo u2 n2)).map
        VendorInfo.vendor_address =
      (doc.vendor_info.map (canonVendorInfo u1 n1)).map VendorInfo.vendor_address
    cases doc.vendor_info with
    | none => rfl
    | some v => exact congrArg some (clean_string_idem v.vendor_address)
  · show ((doc.vendor_info.map (canonVendorInfo u1 n1)).map (canonVendorInfo u2 n2)).map
        VendorInfo.vendor_tax_id =
      (doc.vendor_info.map (canonVendorInfo u1 n1)).map VendorInfo.vendor_tax_id
    cases doc.vendor_info with
    | none => rfl
    | some v => exact congrArg some (clean_string_idem v.vendor_tax_id)
  · show (((doc.vendor_info.map (canonVendorInfo u1 n1)).map (canonVendorInfo u2 n2)).bind
        VendorInfo.vendor_name_canonical).map VendorCanonical.normalized_name =
      ((doc.vendor_info.map (canonVendorInfo u1 n1)).bind
        VendorInfo.vendor_name_canonical).map VendorCanonical.normalized_name
    cases doc.vendor_info with
    | none => rfl
    | some v => exact congrArg some (cvn_normalized u1 n1 u2 n2 v.vendor_name)
  · show (((doc.vendor_info.map (canonVendorInfo u1 n1)).map (canonVendorInfo u2 n2)).bind
        VendorInfo.vendor_name_canonical).map VendorCanonical.raw_input =
      ((doc.vendor_info.map (canonVendorInfo u1 n1)).bind
        VendorInfo.vendor_name_canonical).map VendorCanonical.raw_input
    cases doc.vendor_info with
    | none => rfl
    | some v => exact congrArg some (cvn_raw_input u1 n1 u2 n2 v.vendor_name)

/-- C3: the status of the pipeline record is the scorer status and does
not depend on the validation result, which is computed but only reported;
and on docC3 the invoice is auto_approved by score while failing
structural validation (company name over 200 characters). -/
theorem C3_status_from_scorer_only :
    (∀ uid now doc, (extract_pipeline uid now doc).status =
      (calculate_confidence (canonicalize_invoice uid now doc)).status) ∧
    (extract_pipeline "AAAAAAAA" "2025-01-01T00:00:00" docC3).status = "auto_approved" ∧
    (extract_pipeline "AAAAAAAA" "2025-01-01T00:00:00" docC3).valid = false := by
  refine ⟨fun uid now doc => rfl, ?_, ?_⟩ <;> decide

/-- C7 counterexample: in 50,00 the lone comma is followed by exactly two
digits at the end of the string, so the claim predicts the decimal
reading 50; the regex \d{3},\d{2}$ also demands three digits before the
comma, so the code removes the comma and returns 5000. -/
theorem C7_comma_decimal_needs_three_digits :
    (normalize_currency_amount (PyNum.str "50,00")).1 = some 5000 ∧
    ¬((normalize_currency_amount (PyNum.str "50,00")).1 = some 50) := by
  decide

/-- The field_confidence component of the scorer result, unfolded. -/
theorem field_confidence_eq (inv : Invoice) :
    (calculate_confidence inv).field_confidence =
      (fieldScores inv).map (fun p => (p.1, round2 p.2)) := rfl

theorem round2_bound_150 {s : ℚ} (h0 : 0 ≤ s) (h1 : s ≤ 150) :
    0 ≤ round2 s ∧ round2 s ≤ 150 := by
  refine ⟨round2_nonneg h0, ?_⟩
  have h2 : s ≤ ((150 : ℤ) : ℚ) := by push_cast; linarith
  have h3 := round2_le h2
  exact_mod_cast h3

theorem round2_bound_100_150 {s : ℚ} (h0 : 0 ≤ s) (h1 : s ≤ 100) :
    0 ≤ round2 s ∧ round2 s ≤ 150 :=
  round2_bound_150 h0 (by linarith)

/-- C4 (amended): every per-field scorer is nonnegative, but company_name
reaches up to 150 and vendor_name up to 120 while the other five stay
within [0,100]; consequently every entry of the field_confidence mapping
lies in [0,150], not [0,100]. -/
theorem C4_field_scores_bounded :
    (∀ x, 0 ≤ score_company_name x ∧ score_company_name x ≤ 150) ∧
    (∀ x, 0 ≤ score_invoice_number x ∧ score_invoice_number x ≤ 100) ∧
    (∀ x, 0 ≤ score_date x ∧ score_date x ≤ 100) ∧
    (∀ x, 0 ≤ score_time x ∧ score_time x ≤ 100) ∧
    (∀ x, 0 ≤ score_vendor_name x ∧ score_vendor_name x ≤ 120) ∧
    (∀ l, 0 ≤ score_items l ∧ score_items l ≤ 100) ∧
    (∀ x, 0 ≤ score_pricing x ∧ score_pricing x ≤ 100) ∧
    ∀ (inv : Invoice) (p : String × ℚ),
      p ∈ (calculate_confidence inv).field_confidence → 0 ≤ p.2 ∧ p.2 ≤ 150 := by
  refine ⟨score_company_name_bounds, score_invoice_number_bounds, score_date_bounds,
    score_time_bounds, score_vendor_name_bounds, score_items_bounds, score_pricing_bounds, ?_⟩
  intro inv p hp
  rw [field_confidence_eq] at hp
  simp only [fieldScores, List.map_cons, List.map_nil, List.mem_cons,
    List.not_mem_nil, or_false] at hp
  rcases hp with h | h | h | h | h | h | h <;> subst h
  · exact round2_bound_150 (score_company_name_bounds _).1 (score_company_name_bounds _).2
  · exact round2_bound_100_150 (score_invoice_number_bounds _).1
      (score_invoice_number_bounds _).2
  · exact round2_bound_100_150 (score_date_bounds _).1 (score_date_bounds _).2
  · exact round2_bound_100_150 (score_time_bounds _).1 (score_time_bounds _).2
  · exact round2_bound_150 (score_vendor_name_bounds _).1
      (by linarith [(score_vendor_name_bounds (inv.vendor_info.bind VendorInfo.vendor_name)).2])
  · exact round2_bound_100_150 (score_items_bounds _).1 (score_items_bounds _).2
  · exact round2_bound_100_150 (score_pricing_bounds _).1 (score_pricing_bounds _).2

/-- C4 witness: on the empty document the field_confidence entry for time
is 100, which lies in [0,150]. -/
theorem C4_field_scores_bounded_witness :
    ("time", (100 : ℚ)) ∈ (calculate_confidence emptyInv).field_confidence ∧
      (0 ≤ (100 : ℚ) ∧ (100 : ℚ) ≤ 150) :=
  ⟨by decide,
   C4_field_scores_bounded.2.2.2.2.2.2.2 emptyInv ("time", (100 : ℚ)) (by decide)⟩

/-- C5 (amended): the aggregate weighs the seven computed field scores
with company_name 10, invoice_number 8, date 12, time 3, vendor_name 10,
items 25 and pricing with the default weight 10 (the key pricing is
absent from FIELD_WEIGHTS), total weight 78; the overall confidence is
the weighted sum divided by 78, capped at 100 and rounded to 2
decimals. -/
theorem C5_weighted_aggregate (inv : Invoice) :
    weightOf "company_name" = 10 ∧ weightOf "invoice_number" = 8 ∧
    weightOf "date" = 12 ∧ weightOf "time" = 3 ∧ weightOf "vendor_name" = 10 ∧
    weightOf "items" = 25 ∧ weightOf "pricing" = 10 ∧
    (calculate_confidence inv).overall_confidence =
      round2 (min ((score_company_name (inv.invoice_metadata.bind Meta.company_name) * 10 +
        score_invoice_number (inv.invoice_metadata.bind Meta.invoice_number) * 8 +
        score_date (inv.invoice_metadata.bind Meta.date) * 12 +
        score_time (inv.invoice_metadata.bind Meta.time) * 3 +
        score_vendor_name (inv.vendor_info.bind VendorInfo.vendor_name) * 10 +
        score_items (inv.items.getD []) * 25 +
        score_pricing inv.pricing_summary * 10) / 78) 100) := by
  have hw1 : weightOf "company_name" = 10 := by decide
  have hw2 : weightOf "invoice_number" = 8 := by decide
  have hw3 : weightOf "date" = 12 := by decide
  have hw4 : weightOf "time" = 3 := by decide
  have hw5 : weightOf "vendor_name" = 10 := by decide
  have hw6 : weightOf "items" = 25 := by decide
  have hw7 : weightOf "pricing" = 10 := by decide
  refine ⟨hw1, hw2, hw3, hw4, hw5, hw6, hw7, ?_⟩
  show round2 (min (if 0 < ((fieldScores inv).map (fun p => weightOf p.1)).sum
      then ((fieldScores inv).map (fun p => p.2 * weightOf p.1)).sum /
        ((fieldScores inv).map (fun p => weightOf p.1)).sum
      else 0) 100) = _
  simp only [fieldScores, List.map_cons, List.map_nil, List.sum_cons, List.sum_nil,
    hw1, hw2, hw3, hw4, hw5, hw6, hw7]
  norm_num
  ring_nf

/-- C7 (amended): with exactly one comma and no dot in the cleaned text,
the code keeps the comma as a decimal separator exactly when the text
ends in three digits, a comma and two digits (regex \d{3},\d{2}$), and
otherwise strips it as thousands grouping; so 1200,50 parses as
1200.50. -/
theorem C7_one_comma_rule (l : List Char)
    (h1 : countChar ',' l = 1) (h2 : countChar '.' l = 0) :
    separatorFix l =
      (if endsDddCommaDd l then commaToDot l
       else l.filter (fun c => ¬(c = ','))) ∧
    (normalize_currency_amount (PyNum.str "1200,50")).1 = some (2401 / 2) := by
  constructor
  · rw [separatorFix,
      if_neg (by simp [h1, h2] : ¬(countChar ',' l = 1 ∧ countChar '.' l = 1)),
      if_pos h1]
  · decide

/-- C7 witness: 1200,50 has one comma and no dot; it matches the
three-digit rule, so the comma becomes a dot and the value is 1200.50. -/
theorem C7_one_comma_rule_witness :
    countChar ',' "1200,50".toList = 1 ∧ countChar '.' "1200,50".toList = 0 ∧
    (separatorFix "1200,50".toList =
      (if endsDddCommaDd "1200,50".toList then commaToDot "1200,50".toList
       else "1200,50".toList.filter (fun c => ¬(c = ','))) ∧
     (normalize_currency_amount (PyNum.str "1200,50")).1 = some (2401 / 2)) :=
  ⟨by decide, by decide, C7_one_comma_rule "1200,50".toList (by decide) (by decide)⟩

/-- C8: the validator date check is shape-only: any string matching
dddd-dd-dd passes validate_date; 2025-99-99 passes full invoice
validation on docC8 even though it is no calendar date and the scorer
gives it the invalid-calendar score 50. -/
theorem C8_pattern_only_date_validation :
    (∀ s : String, isoTenB s = true → validate_date (some s) = (true, Option.none)) ∧
    validate_date (some "2025-99-99") = (true, Option.none) ∧
    validate_invoice docC8 = (true, Option.none) ∧
    isoStrptimeOk "2025-99-99" = false ∧
    score_date (some "2025-99-99") = 50 := by
  refine ⟨?_, by decide, by decide, by decide, by decide⟩
  intro s hs
  have hne : ¬(s = "") := by
    intro h
    rw [h] at hs
    exact absurd hs (by decide)
  simp [validate_date, hne, hs]

/-- C8 witness: 2025-99-99 matches the shape, so validate_date accepts
it. -/
theorem C8_pattern_only_date_validation_witness :
    isoTenB "2025-99-99" = true ∧ validate_date (some "2025-99-99") = (true, Option.none) :=
  ⟨by decide, C8_pattern_only_date_validation.1 "2025-99-99" (by decide)⟩

/-- C9: a blank (absent, empty or whitespace-only) vendor name yields the
sentinel record with no first_seen field, while a non-blank name yields a
record with first_seen set to the call timestamp and a fresh VENDOR_
id. -/
theorem C9_vendor_sentinel_no_first_seen (uid now : String) (name : Option String) :
    (blankS name = true →
      canonicalize_vendor_name uid now name =
        { canonical_id := "VENDOR_UNKNOWN"
          normalized_name := "Unknown"
          raw_input := name
          first_seen := Option.none }) ∧
    (blankS name = false →
      (canonicalize_vendor_name uid now name).first_seen = some now ∧
      (canonicalize_vendor_name uid now name).canonical_id = "VENDOR_" ++ uid) := by
  constructor
  · intro h
    rw [canonicalize_vendor_name, if_pos h]
  · intro h
    rw [canonicalize_vendor_name, if_neg (by simp [h])]
    exact ⟨rfl, rfl⟩

/-- C9 witness: a whitespace-only name takes the sentinel branch without
first_seen; Acme Corp gets a first_seen timestamp. -/
theorem C9_vendor_sentinel_no_first_seen_witness :
    blankS (some "   ") = true ∧
    canonicalize_vendor_name "AAAAAAAA" "2025-01-01T00:00:00" (some "   ") =
      { canonical_id := "VENDOR_UNKNOWN"
        normalized_name := "Unknown"
        raw_input := some "   "
        first_seen := Option.none } ∧
    blankS (some "Acme Corp") = false ∧
    (canonicalize_vendor_name "AAAAAAAA" "2025-01-01T00:00:00"
      (some "Acme Corp")).first_seen = some "2025-01-01T00:00:00" :=
  ⟨by decide,
   (C9_vendor_sentinel_no_first_seen "AAAAAAAA" "2025-01-01T00:00:00"
     (some "   ")).1 (by decide),
   by decide,
   ((C9_vendor_sentinel_no_first_seen "AAAAAAAA" "2025-01-01T00:00:00"
     (some "Acme Corp")).2 (by decide)).1⟩

/-- C10: canonicalization stores the normalized discounted_price under
the new key discount_price and leaves discounted_price itself unchanged,
so the scorer discount bonus keeps reading the raw discounted_price
value (while actual_price arrives normalized). -/
theorem C10_discount_price_frame (d : Discount) (it : Item) :
    (canonDiscount d).discounted_price = d.discounted_price ∧
    (canonDiscount d).discount_price = amtField d.discounted_price ∧
    (it.discount = some d →
      ((canonItem it).discount.map Discount.discounted_price = some d.discounted_price ∧
       (canonItem it).discount.map Discount.discount_price =
         some (amtField d.discounted_price))) ∧
    (it.discount = some d →
      itemScore (canonItem it) =
        (if presentOptS (clean_string it.item_name) then 25 else 0) +
          (if presentNum (amtField it.quantity) then 25 else 0) +
          (if presentNum (amtField it.unit_price) then 25 else 0) +
          (if presentNum (amtField it.line_total) then 25 else 0) +
          (if d.has_discount = some true then
            if truthyNum (amtField d.actual_price) ∧ truthyNum d.discounted_price then 10
            else 0
           else 0)) := by
  refine ⟨rfl, rfl, ?_, ?_⟩
  · intro h
    simp [canonItem, h, canonDiscount]
  · intro h
    simp only [itemScore, canonItem, h, Option.map_some]
    rfl

/-- C10 witness: on the concrete item itC10 the raw textual
discounted_price 50,00 survives canonicalization unchanged, its
normalized value 5000 lands under discount_price, and the bonus fires
because the raw discounted_price is truthy. -/
theorem C10_discount_price_frame_witness :
    itC10.discount = some dC10 ∧
    (canonItem itC10).discount.map Discount.discounted_price =
      some (PyNum.str "50,00") ∧
    (canonItem itC10).discount.map Discount.discount_price = some (PyNum.num 5000) ∧
    itemScore (canonItem itC10) = 110 := by
  refine ⟨rfl, ?_, ?_, ?_⟩
  · exact (((C10_discount_price_frame dC10 itC10).2.2.1 rfl).1).trans (by decide)
  · exact (((C10_discount_price_frame dC10 itC10).2.2.1 rfl).2).trans (by decide)
  · exact ((C10_discount_price_frame dC10 itC10).2.2.2 rfl).trans (by decide)

end InvoLogs
